import Mathlib

/-!
Verification development for the NAV OPG synchronization pipeline
(`opg.py`, `sync_service.py`, `adalo_client.py`).

Strings are modelled as `List Char` (Python `str`) and byte strings as
`List Nat` with every element `< 256` (Python `bytes`).  Machine-word
arithmetic is modelled on `Nat` with explicit reduction `% 2^64`.
Fallible Python code (functions that can raise) is modelled with
`Option`/`Except`; external effects (subprocess runs, HTTP stores) are
passed in as explicit values or oracles.
-/

set_option maxRecDepth 20000

/-! ## Basic character and string helpers -/

/-- Python whitespace test for `str.strip()` / `int()` argument stripping:
space, tab, newline, carriage return, vertical tab, form feed (ASCII). -/
def isPyWs (c : Char) : Bool :=
  c == ' ' || c == '\t' || c == '\n' || c == '\r' || c == '\x0b' || c == '\x0c'

/-- Python `str.strip()` (ASCII whitespace, both ends). -/
def stripChars (s : List Char) : List Char :=
  ((s.dropWhile isPyWs).reverse.dropWhile isPyWs).reverse

/-- Numeric value of a list of decimal digit characters (most significant first). -/
def digitsToNat (ds : List Char) : Nat :=
  ds.foldl (fun a c => 10 * a + (c.toNat - 48)) 0

/-- Shared digit-run parser for `int(str)`: nonempty, all decimal digits. -/
def pyDigitsVal (ds : List Char) : Option Int :=
  if (!ds.isEmpty) && ds.all Char.isDigit then some ((digitsToNat ds : Nat) : Int) else none

/-- Python `int(str)`: strips surrounding whitespace, accepts an optional
sign followed by a nonempty run of decimal digits, raises `ValueError`
(`none`) otherwise.  (Underscore digit separators are not modelled; the
values stored by this system are plain digit strings.) -/
def pyIntParse (s : List Char) : Option Int :=
  let t := stripChars s
  if t.head? = some '+' then pyDigitsVal (t.drop 1)
  else if t.head? = some '-' then (pyDigitsVal (t.drop 1)).map (fun n => -n)
  else pyDigitsVal t

/-! ## Fetch-range computation (`sync_service.sync_user`, lines 380-393)

The stored watermark field `lastbizonylatletoltve` is written by
`AdaloClient.update_user_sync` as `str(last_file_number)`, so it is read
back as an optional string.  `sync_user` does:

    last_synced_file = user.get('lastbizonylatletoltve')
    if last_synced_file:
        try: start_file = int(last_synced_file) + 1
        except ValueError: start_file = status['min']
    else:
        start_file = status['min']
    end_file = status['max']
    if start_file > end_file:
        return {'success': True, 'message': 'No new files to sync', ...}
-/

/-- Result record of one merchant sync (`sync_user` return dictionary,
restricted to the fields the orchestrator inspects). -/
structure SyncResultRec where
  success : Bool
  message : List Char
  filesSynced : Nat
  revenuesCreated : Nat
deriving Repr, DecidableEq

/-- Start of the fetch range (`start_file`).  Python truthiness: `None`
and the empty string are falsy; a non-numeric string raises `ValueError`
inside `int(...)` and falls back to the remote minimum. -/
def computeStartFile (lastSynced : Option (List Char)) (statusMin : Int) : Int :=
  match lastSynced with
  | some s =>
    if !s.isEmpty then
      match pyIntParse s with
      | some v => v + 1
      | none => statusMin
    else statusMin
  | none => statusMin

/-- Outcome of the range step: either the no-op success short circuit or
the bounds handed to the download stage. -/
inductive RangeStep where
  | noNewFiles (res : SyncResultRec)
  | download (startFile endFile : Int)
deriving Repr, DecidableEq

/-- Message of the no-op result in `sync_user`. -/
def noNewFilesMsg : List Char := "No new files to sync".toList

/-- Range computation and short circuit of `sync_user` (lines 380-393). -/
def computeRange (lastSynced : Option (List Char)) (statusMin statusMax : Int) :
    RangeStep :=
  let startFile := computeStartFile lastSynced statusMin
  let endFile := statusMax
  if startFile > endFile then
    .noNewFiles ⟨true, noNewFilesMsg, 0, 0⟩
  else
    .download startFile endFile

/-! ### Supporting lemmas for the range claims -/

theorem isDigit_not_pyWs {c : Char} (h : c.isDigit = true) : isPyWs c = false := by
  refine Bool.eq_false_iff.mpr ?_
  intro hw
  have hc : c = ' ' ∨ c = '\t' ∨ c = '\n' ∨ c = '\r' ∨ c = '\x0b' ∨ c = '\x0c' := by
    simpa [isPyWs, or_assoc] using hw
  rcases hc with rfl | rfl | rfl | rfl | rfl | rfl <;> exact absurd h (by decide)

theorem dropWhile_eq_self_of_all_false {p : α → Bool} {l : List α}
    (h : ∀ a ∈ l, p a = false) : l.dropWhile p = l := by
  cases l with
  | nil => rfl
  | cons a t =>
    rw [List.dropWhile_cons]
    simp [h a (List.mem_cons_self a t)]

theorem stripChars_of_digits {ds : List Char} (h : ds.all Char.isDigit) :
    stripChars ds = ds := by
  have hnw : ∀ c ∈ ds, isPyWs c = false := by
    intro c hc
    exact isDigit_not_pyWs (by simpa using List.all_eq_true.mp h c hc)
  unfold stripChars
  rw [dropWhile_eq_self_of_all_false hnw,
      dropWhile_eq_self_of_all_false (by intro c hc; exact hnw c (List.mem_reverse.mp hc)),
      List.reverse_reverse]

theorem pyIntParse_digits {ds : List Char} (hne : ds ≠ [])
    (h : ds.all Char.isDigit) :
    pyIntParse ds = some ((digitsToNat ds : Nat) : Int) := by
  have hstrip := stripChars_of_digits h
  cases ds with
  | nil => exact absurd rfl hne
  | cons c t =>
    have hc : c.isDigit = true := by simpa using List.all_eq_true.mp h c (List.mem_cons_self c t)
    have hplus : c ≠ '+' := by rintro rfl; simp [Char.isDigit] at hc
    have hminus : c ≠ '-' := by rintro rfl; simp [Char.isDigit] at hc
    unfold pyIntParse
    rw [hstrip]
    simp only [List.head?_cons]
    rw [if_neg (by simpa using hplus), if_neg (by simpa using hminus)]
    simp [pyDigitsVal, h]

/-- C3 claim: the fetch range starts at `watermark + 1` when a (numeric,
nonempty) watermark string exists and at the remote minimum otherwise;
the end is always the remote maximum; if `start > end` the run returns
the successful "No new files to sync" result with zero files synced and
zero revenue records created; and the three concrete examples
`(watermark=None, min=5, max=20) ↦ [5, 20]`,
`(watermark="20", max=20) ↦ no-op success`,
`(watermark="19", max=20) ↦ [20, 20]` hold.  Determinism is immediate
since `computeRange` is a function of its arguments. -/
theorem C3_range_computation :
    (∀ (ds : List Char) (statusMin : Int), ds ≠ [] → ds.all Char.isDigit →
      computeStartFile (some ds) statusMin = ((digitsToNat ds : Nat) : Int) + 1) ∧
    (∀ statusMin : Int, computeStartFile none statusMin = statusMin) ∧
    (∀ w statusMin statusMax sf ef,
      computeRange w statusMin statusMax = .download sf ef →
      ef = statusMax ∧ sf = computeStartFile w statusMin ∧ sf ≤ ef) ∧
    (∀ w statusMin statusMax,
      computeStartFile w statusMin > statusMax →
      computeRange w statusMin statusMax = .noNewFiles ⟨true, noNewFilesMsg, 0, 0⟩) ∧
    (computeRange none 5 20 = .download 5 20) ∧
    (∀ statusMin : Int,
      computeRange (some "20".toList) statusMin 20 = .noNewFiles ⟨true, noNewFilesMsg, 0, 0⟩) ∧
    (∀ statusMin : Int,
      computeRange (some "19".toList) statusMin 20 = .download 20 20) := by
  refine ⟨?_, ?_, ?_, ?_, ?_, ?_, ?_⟩
  · intro ds statusMin hne hd
    simp only [computeStartFile]
    rw [if_pos (by simpa using hne), pyIntParse_digits hne hd]
  · intro statusMin; rfl
  · intro w statusMin statusMax sf ef h
    unfold computeRange at h
    by_cases hgt : computeStartFile w statusMin > statusMax
    · rw [if_pos hgt] at h; exact absurd h (by simp)
    · rw [if_neg hgt] at h
      cases h
      exact ⟨rfl, rfl, by omega⟩
  · intro w statusMin statusMax hgt
    unfold computeRange
    rw [if_pos hgt]
  · rfl
  · intro statusMin
    have h20 : pyIntParse ['2', '0'] = some 20 := by decide
    simp [computeRange, computeStartFile, h20]
  · intro statusMin
    have h19 : pyIntParse ['1', '9'] = some 19 := by decide
    simp [computeRange, computeStartFile, h19]

/-- Witness for `C3_range_computation` at concrete inputs: watermark
string "7" (all digits, nonempty) gives start 8, and the `download`
constructor ranges are characterized at `(none, 5, 20)`. -/
theorem C3_range_computation_witness :
    ("7".toList ≠ [] ∧ "7".toList.all Char.isDigit) ∧
    computeStartFile (some "7".toList) (3 : Int) = 8 ∧
    computeStartFile none (3 : Int) = 3 ∧
    computeRange none 5 20 = .download 5 20 := by
  refine ⟨⟨by decide, by decide⟩, ?_, ?_, ?_⟩
  · have h := C3_range_computation.1 "7".toList 3 (by decide) (by decide)
    rw [h]; decide
  · exact C3_range_computation.2.1 3
  · exact C3_range_computation.2.2.2.2.1

/-! ## Download stage (`sync_service.download_nav_files`, `opg.py download-all`)

`sync_user` passes the computed `start_file`/`end_file` into
`download_nav_files`, but that function invokes the `opg.py download-all`
command, which re-queries the remote status itself and requests
`fileNumberStart = status['min']`, `fileNumberEnd = status['max']`
(opg.py lines 405-428).  The `start_file`/`end_file` arguments are never
forwarded to the subprocess. -/

/-- File numbers requested by `opg.py download-all`: the full remote
range `[status.min, status.max]`. -/
def downloadAllRange (statusMin statusMax : Nat) : List Nat :=
  List.range' statusMin (statusMax + 1 - statusMin)

/-- File numbers fetched by `sync_service.download_nav_files`.  The
`startFile`/`endFile` parameters are ignored, exactly as in the source:
the subprocess is invoked with only `--ap`/`--out`. -/
def download_nav_files_range (_startFile _endFile : Int) (statusMin statusMax : Nat) :
    List Nat :=
  downloadAllRange statusMin statusMax

/-- C2 divergence witness: with stored watermark "5" and remote status
`min = 1, max = 20` truncated here to `max = 10`, the orchestrator
computes the fetch range `[6, 10]`, but the download stage fetches the
files `1..10`, including file `1 ≤ watermark = 5` — contradicting the
claim that only files `watermark+1 .. max` are downloaded and
aggregated. -/
theorem C2_download_ignores_watermark :
    computeRange (some "5".toList) 1 10 = .download 6 10 ∧
    download_nav_files_range 6 10 1 10 = [1, 2, 3, 4, 5, 6, 7, 8, 9, 10] ∧
    1 ∈ download_nav_files_range 6 10 1 10 ∧
    (1 : Nat) ≤ 5 := by
  refine ⟨by decide, by decide, by decide, by decide⟩

/-! ## Persistence phase (`sync_service.sync_user`, lines 406-459)

    revenues_created = 0
    for file_number, data in sorted(file_revenues.items()):
        adalo_client.create_daily_revenue(...)   -- raises on HTTP >= 400
        revenues_created += 1
    ... (SFTP upload: failures swallowed, no store effect) ...
    adalo_client.update_user_sync(user_id, now_iso, end_file)

`AdaloClient._request` raises on any status >= 400, so a failed create
or update propagates to the outer `except` of `sync_user`, which
returns `{'success': False, ..., 'revenues_created': 0}` without
running any later store call.  The store calls are modelled by the
oracles `createOk` (per file number) and `updateOk`. -/

/-- One aggregate record (the `file_data` dictionary values of
`aggregate_daily_revenues`). -/
structure DailyRevenueRec where
  fileNumber : Nat
  date : List Char
  receiptsCount : Nat
  totalRevenue : Int
deriving Repr, DecidableEq

/-- External record store state, restricted to what the sync run writes:
created revenue rows (in creation order) and the two user sync fields
(`lastbizonylatszinkron`, `lastbizonylatletoltve`, the latter stored as
`str(last_file_number)`). -/
structure StoreState where
  createdRows : List (Nat × DailyRevenueRec)
  lastSyncAt : Option (List Char)
  lastFileNumber : Option (List Char)
deriving Repr, DecidableEq

/-- `sorted(file_revenues.items())`: Python sorts the `(int, dict)`
pairs; the keys are distinct dictionary keys, so this is a sort by file
number. -/
def persistSorted (revs : List (Nat × DailyRevenueRec)) : List (Nat × DailyRevenueRec) :=
  revs.mergeSort (fun a b => Nat.ble a.1 b.1)

/-- The `create_daily_revenue` loop: on the first failing create the
exception propagates (remaining rows are not written, the reported
`revenues_created` of the error result is 0). -/
def createLoop : List (Nat × DailyRevenueRec) → (Nat → Bool) → Nat → StoreState →
    Bool × Nat × StoreState
  | [], _, cnt, st => (true, cnt, st)
  | (n, d) :: rest, ok, cnt, st =>
    if ok n then
      createLoop rest ok (cnt + 1) { st with createdRows := st.createdRows ++ [(n, d)] }
    else (false, 0, st)

/-- Persistence phase of `sync_user`: create one revenue row per file in
ascending file-number order, then update the user's watermark and
last-synced-at timestamp.  Returns `(success, revenues_created, store)`. -/
def persistPhase (fileRevenues : List (Nat × DailyRevenueRec)) (endFile : Nat)
    (nowIso : List Char) (createOk : Nat → Bool) (updateOk : Bool) (st : StoreState) :
    Bool × Nat × StoreState :=
  let r := createLoop (persistSorted fileRevenues) createOk 0 st
  if r.1 then
    if updateOk then
      (true, r.2.1,
        { r.2.2 with lastSyncAt := some nowIso,
                     lastFileNumber := some (Nat.repr endFile).toList })
    else (false, 0, r.2.2)
  else (false, 0, r.2.2)

theorem createLoop_rows_take (items : List (Nat × DailyRevenueRec)) (ok : Nat → Bool) :
    ∀ (cnt : Nat) (st : StoreState), ∃ k,
      (createLoop items ok cnt st).2.2.createdRows = st.createdRows ++ items.take k := by
  induction items with
  | nil => intro cnt st; exact ⟨0, by simp [createLoop]⟩
  | cons p rest ih =>
    intro cnt st
    obtain ⟨n, d⟩ := p
    by_cases hok : ok n = true
    · obtain ⟨k, hk⟩ := ih (cnt + 1) { st with createdRows := st.createdRows ++ [(n, d)] }
      exact ⟨k + 1, by simpa [createLoop, hok, List.append_assoc] using hk⟩
    · refine ⟨0, ?_⟩
      simp [createLoop, hok]

theorem createLoop_success_iff (items : List (Nat × DailyRevenueRec)) (ok : Nat → Bool) :
    ∀ (cnt : Nat) (st : StoreState),
      ((createLoop items ok cnt st).1 = true ↔ ∀ p ∈ items, ok p.1 = true) := by
  induction items with
  | nil => intro cnt st; simp [createLoop]
  | cons p rest ih =>
    intro cnt st
    obtain ⟨n, d⟩ := p
    by_cases hok : ok n = true
    · simp [createLoop, hok, ih]
    · simp [createLoop, hok]

theorem createLoop_success_rows (items : List (Nat × DailyRevenueRec)) (ok : Nat → Bool) :
    ∀ (cnt : Nat) (st : StoreState), (createLoop items ok cnt st).1 = true →
      (createLoop items ok cnt st).2.2.createdRows = st.createdRows ++ items ∧
      (createLoop items ok cnt st).2.1 = cnt + items.length := by
  induction items with
  | nil => intro cnt st _; simp [createLoop]
  | cons p rest ih =>
    intro cnt st hsucc
    obtain ⟨n, d⟩ := p
    by_cases hok : ok n = true
    · have h := ih (cnt + 1) { st with createdRows := st.createdRows ++ [(n, d)] }
        (by simpa [createLoop, hok] using hsucc)
      refine ⟨?_, ?_⟩
      · simpa [createLoop, hok, List.append_assoc] using h.1
      · have h2 := h.2
        simp only [createLoop, hok, if_true, List.length_cons]
        rw [h2]
        omega
    · simp [createLoop, hok] at hsucc

theorem createLoop_user_fields (items : List (Nat × DailyRevenueRec)) (ok : Nat → Bool) :
    ∀ (cnt : Nat) (st : StoreState),
      (createLoop items ok cnt st).2.2.lastSyncAt = st.lastSyncAt ∧
      (createLoop items ok cnt st).2.2.lastFileNumber = st.lastFileNumber := by
  induction items with
  | nil => intro cnt st; simp [createLoop]
  | cons p rest ih =>
    intro cnt st
    obtain ⟨n, d⟩ := p
    by_cases hok : ok n = true
    · simpa [createLoop, hok] using
        ih (cnt + 1) { st with createdRows := st.createdRows ++ [(n, d)] }
    · simp [createLoop, hok]

theorem persistSorted_sorted (revs : List (Nat × DailyRevenueRec)) :
    (persistSorted revs).Pairwise (fun a b => a.1 ≤ b.1) := by
  have h := @List.sorted_mergeSort _ (fun a b : Nat × DailyRevenueRec => Nat.ble a.1 b.1)
    (by intro a b c hab hbc
        exact Nat.ble_eq.mpr (le_trans (Nat.ble_eq.mp hab) (Nat.ble_eq.mp hbc)))
    (by intro a b
        rcases Nat.le_total a.1 b.1 with h | h
        · simp [Nat.ble_eq.mpr h]
        · simp [Nat.ble_eq.mpr h])
    revs
  exact h.imp (fun hab => Nat.ble_eq.mp hab)

theorem persistSorted_perm (revs : List (Nat × DailyRevenueRec)) :
    (persistSorted revs).Perm revs :=
  List.mergeSort_perm revs _

theorem persistSorted_strict (revs : List (Nat × DailyRevenueRec))
    (hnd : (revs.map Prod.fst).Nodup) :
    (persistSorted revs).Pairwise (fun a b => a.1 < b.1) := by
  have hperm : ((persistSorted revs).map Prod.fst).Perm (revs.map Prod.fst) :=
    (persistSorted_perm revs).map Prod.fst
  have hnd2 : ((persistSorted revs).map Prod.fst).Nodup := (hperm.nodup_iff).mpr hnd
  have hne : (persistSorted revs).Pairwise (fun a b => a.1 ≠ b.1) :=
    (List.pairwise_map.mp hnd2)
  exact ((persistSorted_sorted revs).and hne).imp
    (fun hab => lt_of_le_of_ne hab.1 hab.2)

/-- C4 claim: in the persistence phase the aggregate rows are written to
the store one per processed file in strictly ascending file-number order
(the rows appended during any run form a prefix of the sorted record
list); the run succeeds exactly when every create and the final update
succeed; on success all rows are written and only then are the
watermark (set to `str(end_file)`) and the last-synced-at timestamp
stored; if any aggregate write fails the run reports failure and both
user sync fields are left unchanged. -/
theorem C4_persist_watermark_after_writes
    (revs : List (Nat × DailyRevenueRec)) (endFile : Nat) (nowIso : List Char)
    (createOk : Nat → Bool) (updateOk : Bool) (st : StoreState)
    (hnd : (revs.map Prod.fst).Nodup) :
    ((persistSorted revs).map Prod.fst).Pairwise (· < ·) ∧
    (∃ k, (persistPhase revs endFile nowIso createOk updateOk st).2.2.createdRows =
          st.createdRows ++ (persistSorted revs).take k) ∧
    ((persistPhase revs endFile nowIso createOk updateOk st).1 = true ↔
      (∀ p ∈ revs, createOk p.1 = true) ∧ updateOk = true) ∧
    ((persistPhase revs endFile nowIso createOk updateOk st).1 = true →
      (persistPhase revs endFile nowIso createOk updateOk st).2.2.createdRows =
        st.createdRows ++ persistSorted revs ∧
      (persistPhase revs endFile nowIso createOk updateOk st).2.1 = revs.length ∧
      (persistPhase revs endFile nowIso createOk updateOk st).2.2.lastFileNumber =
        some (Nat.repr endFile).toList ∧
      (persistPhase revs endFile nowIso createOk updateOk st).2.2.lastSyncAt = some nowIso) ∧
    ((∃ p ∈ revs, createOk p.1 = false) →
      (persistPhase revs endFile nowIso createOk updateOk st).1 = false ∧
      (persistPhase revs endFile nowIso createOk updateOk st).2.2.lastFileNumber =
        st.lastFileNumber ∧
      (persistPhase revs endFile nowIso createOk updateOk st).2.2.lastSyncAt =
        st.lastSyncAt) := by
  have hmemiff : ∀ p, p ∈ persistSorted revs ↔ p ∈ revs :=
    fun p => (persistSorted_perm revs).mem_iff
  have hloopfields := createLoop_user_fields (persistSorted revs) createOk 0 st
  refine ⟨?_, ?_, ?_, ?_, ?_⟩
  · exact List.pairwise_map.mpr (persistSorted_strict revs hnd)
  · obtain ⟨k, hk⟩ := createLoop_rows_take (persistSorted revs) createOk 0 st
    unfold persistPhase
    by_cases h1 : (createLoop (persistSorted revs) createOk 0 st).1 = true
    · rw [if_pos h1]
      by_cases h2 : updateOk = true
      · subst h2; rw [if_pos rfl]; exact ⟨k, hk⟩
      · have h2f : updateOk = false := by simpa using h2
        subst h2f
        rw [if_neg (by simp)]
        exact ⟨k, hk⟩
    · rw [if_neg h1]
      exact ⟨k, hk⟩
  · unfold persistPhase
    by_cases h1 : (createLoop (persistSorted revs) createOk 0 st).1 = true
    · rw [if_pos h1]
      by_cases h2 : updateOk = true
      · subst h2; rw [if_pos rfl]
        constructor
        · intro _
          refine ⟨fun p hp => ?_, rfl⟩
          exact (createLoop_success_iff (persistSorted revs) createOk 0 st).mp h1 p
            ((hmemiff p).mpr hp)
        · intro _; rfl
      · have h2f : updateOk = false := by simpa using h2
        subst h2f
        rw [if_neg (by simp)]
        constructor
        · intro h; exact absurd h (by simp)
        · rintro ⟨-, h⟩; exact absurd h (by simp)
    · rw [if_neg h1]
      constructor
      · intro h; exact absurd h (by simp)
      · rintro ⟨hall, -⟩
        exact absurd ((createLoop_success_iff (persistSorted revs) createOk 0 st).mpr
          (fun p hp => hall p ((hmemiff p).mp hp))) h1
  · intro hsucc
    have h1 : (createLoop (persistSorted revs) createOk 0 st).1 = true := by
      by_contra h1
      unfold persistPhase at hsucc
      rw [if_neg h1] at hsucc
      exact absurd hsucc (by simp)
    have h2 : updateOk = true := by
      by_contra h2
      have h2f : updateOk = false := by simpa using h2
      unfold persistPhase at hsucc
      rw [if_pos h1, h2f, if_neg (by simp)] at hsucc
      exact absurd hsucc (by simp)
    have hrows := createLoop_success_rows (persistSorted revs) createOk 0 st h1
    have hlen : (persistSorted revs).length = revs.length :=
      (persistSorted_perm revs).length_eq
    subst h2
    unfold persistPhase
    rw [if_pos h1, if_pos rfl]
    exact ⟨hrows.1, by simpa [hlen] using hrows.2, rfl, rfl⟩
  · rintro ⟨p, hp, hfail⟩
    have h1 : (createLoop (persistSorted revs) createOk 0 st).1 ≠ true := by
      intro h1
      have := (createLoop_success_iff (persistSorted revs) createOk 0 st).mp h1 p
        ((hmemiff p).mpr hp)
      rw [hfail] at this
      exact Bool.false_ne_true this
    unfold persistPhase
    rw [if_neg h1]
    exact ⟨rfl, hloopfields.2, hloopfields.1⟩

/-- Witness for `C4_persist_watermark_after_writes`: two concrete rows
with distinct file numbers, an always-succeeding store; the success case
yields the watermark "9". -/
theorem C4_persist_watermark_after_writes_witness :
    ([(3, ⟨3, [], 0, 0⟩), (1, ⟨1, [], 1, 5⟩)].map
        (Prod.fst (α := Nat) (β := DailyRevenueRec))).Nodup ∧
    (persistPhase [(3, ⟨3, [], 0, 0⟩), (1, ⟨1, [], 1, 5⟩)] 9 "T".toList
        (fun _ => true) true ⟨[], none, none⟩).1 = true ∧
    (persistPhase [(3, ⟨3, [], 0, 0⟩), (1, ⟨1, [], 1, 5⟩)] 9 "T".toList
        (fun _ => true) true ⟨[], none, none⟩).2.2.lastFileNumber = some "9".toList := by
  have hnd : ([(3, ⟨3, [], 0, 0⟩), (1, ⟨1, [], 1, 5⟩)].map
      (Prod.fst (α := Nat) (β := DailyRevenueRec))).Nodup := by decide
  have h := C4_persist_watermark_after_writes
    [(3, ⟨3, [], 0, 0⟩), (1, ⟨1, [], 1, 5⟩)] 9 "T".toList (fun _ => true) true
    ⟨[], none, none⟩ hnd
  refine ⟨hnd, ?_, ?_⟩
  · exact h.2.2.1.mpr ⟨fun p _ => rfl, rfl⟩
  · have hs := h.2.2.2.1 (h.2.2.1.mpr ⟨fun p _ => rfl, rfl⟩)
    exact hs.2.2.1

/-! ## Request signing (`opg.py`, lines 24-35 and 58-79)

`sha3_512_upper` / `sha512_upper` hash the UTF-8 encoding of a string and
render the digest as uppercase hexadecimal; they are full executable
models of `hashlib.sha3_512(...).hexdigest().upper()` and
`hashlib.sha512(...).hexdigest().upper()` (Keccak-f[1600] sponge with
SHA3 domain padding, and SHA-512, on `Nat` lanes reduced mod `2^64`).
`user_block` computes the request signature as
`sha3_512_upper(request_id + timestamp_for_sig + key)`, where
`timestamp_for_sig` drops the fractional seconds (`re.sub(r'\.\d+Z$',
'Z', ts)`) and then removes the characters `-`, `:`, `Z`, `T`. -/


/-- UTF-8 encoding of one character. -/
def utf8EncodeChar (c : Char) : List Nat :=
  let n := c.toNat
  if n < 0x80 then [n]
  else if n < 0x800 then [0xC0 + n / 64, 0x80 + n % 64]
  else if n < 0x10000 then [0xE0 + n / 4096, 0x80 + (n / 64) % 64, 0x80 + n % 64]
  else [0xF0 + n / 262144, 0x80 + (n / 4096) % 64, 0x80 + (n / 64) % 64, 0x80 + n % 64]

def utf8Encode (s : List Char) : List Nat := s.flatMap utf8EncodeChar

def w64 (n : Nat) : Nat := n % 18446744073709551616

def rotl64 (x k : Nat) : Nat := w64 ((x <<< (k % 64)) ||| (x >>> (64 - k % 64)))

def getLane (A : List Nat) (i : Nat) : Nat := A.getD i 0

/-- The rho rotation offsets, by lane index `x + 5*y`, generated by the
standard recurrence: starting from `(x, y) = (1, 0)`, step `t` assigns
`(t+1)(t+2)/2 mod 64` and moves to `(y, (2x+3y) mod 5)`. -/
def rhoOffsets : List Nat :=
  ((List.range 24).foldl (fun st t =>
      (st.2.1, (2 * st.1 + 3 * st.2.1) % 5,
        st.2.2.set (st.1 + 5 * st.2.1) ((t + 1) * (t + 2) / 2 % 64)))
    ((1, 0, List.replicate 25 0) : Nat × Nat × List Nat)).2.2

def keccakRC : List Nat :=
  [1, 32898, 9223372036854808714, 9223372039002292224, 32907, 2147483649, 9223372039002292353,
   9223372036854808585, 138, 136, 2147516425, 2147483658, 2147516555, 9223372036854775947,
   9223372036854808713, 9223372036854808579, 9223372036854808578, 9223372036854775936, 32778,
   9223372039002259466, 9223372039002292353, 9223372036854808704, 2147483649, 9223372039002292232]

def keccakTheta (A : List Nat) : List Nat :=
  let C := (List.range 5).map (fun x =>
    getLane A x ^^^ getLane A (x + 5) ^^^ getLane A (x + 10) ^^^
    getLane A (x + 15) ^^^ getLane A (x + 20))
  let D := (List.range 5).map (fun x =>
    getLane C ((x + 4) % 5) ^^^ rotl64 (getLane C ((x + 1) % 5)) 1)
  (List.range 25).map (fun i => getLane A i ^^^ getLane D (i % 5))

def keccakRhoPi (A : List Nat) : List Nat :=
  (List.range 25).map (fun i =>
    let x := i % 5
    let y := i / 5
    let src := (x + 3 * y) % 5 + 5 * x
    rotl64 (getLane A src) (getLane rhoOffsets src))

def keccakChi (B : List Nat) : List Nat :=
  (List.range 25).map (fun i =>
    let x := i % 5
    let y := i / 5
    getLane B i ^^^
      ((getLane B ((x + 1) % 5 + 5 * y) ^^^ 0xFFFFFFFFFFFFFFFF) &&&
        getLane B ((x + 2) % 5 + 5 * y)))

def keccakRound (A : List Nat) (rc : Nat) : List Nat :=
  let C := keccakChi (keccakRhoPi (keccakTheta A))
  (List.range 25).map (fun i => if i = 0 then getLane C 0 ^^^ rc else getLane C i)

def keccakF (A : List Nat) : List Nat := keccakRC.foldl keccakRound A

def load64LE (bs : List Nat) : Nat := bs.foldr (fun b acc => b + 256 * acc) 0

def store64LE (x : Nat) : List Nat := (List.range 8).map (fun k => (x >>> (8 * k)) % 256)

def absorbBlock (A : List Nat) (block : List Nat) : List Nat :=
  keccakF ((List.range 25).map (fun i =>
    if i < 9 then getLane A i ^^^ load64LE ((block.drop (8 * i)).take 8) else getLane A i))

def sha3Pad (len : Nat) : List Nat :=
  let q := 72 - len % 72
  if q = 1 then [0x86] else 0x06 :: (List.replicate (q - 2) 0 ++ [0x80])

def chunks72 (l : List Nat) : List (List Nat) :=
  if l = [] then [] else l.take 72 :: chunks72 (l.drop 72)
termination_by l.length
decreasing_by
  rename_i h
  have hne : l.length ≠ 0 := by simpa [List.length_eq_zero] using h
  simp [List.length_drop]
  omega

def sha3_512_bytes (msg : List Nat) : List Nat :=
  let st := (chunks72 (msg ++ sha3Pad msg.length)).foldl absorbBlock (List.replicate 25 0)
  ((List.range 8).map (fun i => store64LE (getLane st i))).flatten

def hexDigitU (n : Nat) : Char := "0123456789ABCDEF".toList.getD n '0'

def byteHexU (b : Nat) : List Char := [hexDigitU (b / 16 % 16), hexDigitU (b % 16)]

def hexUpper (bs : List Nat) : List Char := (bs.map byteHexU).flatten

def sha3_512_upper (s : List Char) : List Char := hexUpper (sha3_512_bytes (utf8Encode s))

-- SHA-512
def rotr64 (x k : Nat) : Nat := w64 ((x >>> (k % 64)) ||| (x <<< (64 - k % 64)))

def sha512K : List Nat :=
  [4794697086780616226, 8158064640168781261, 13096744586834688815, 16840607885511220156,
   4131703408338449720, 6480981068601479193, 10538285296894168987, 12329834152419229976,
   15566598209576043074, 1334009975649890238, 2608012711638119052, 6128411473006802146,
   8268148722764581231, 9286055187155687089, 11230858885718282805, 13951009754708518548,
   16472876342353939154, 17275323862435702243, 1135362057144423861, 2597628984639134821,
   3308224258029322869, 5365058923640841347, 6679025012923562964, 8573033837759648693,
   10970295158949994411, 12119686244451234320, 12683024718118986047, 13788192230050041572,
   14330467153632333762, 15395433587784984357, 489312712824947311, 1452737877330783856,
   2861767655752347644, 3322285676063803686, 5560940570517711597, 5996557281743188959,
   7280758554555802590, 8532644243296465576, 9350256976987008742, 10552545826968843579,
   11727347734174303076, 12113106623233404929, 14000437183269869457, 14369950271660146224,
   15101387698204529176, 15463397548674623760, 17586052441742319658, 1182934255886127544,
   1847814050463011016, 2177327727835720531, 2830643537854262169, 3796741975233480872,
   4115178125766777443, 5681478168544905931, 6601373596472566643, 7507060721942968483,
   8399075790359081724, 8693463985226723168, 9568029438360202098, 10144078919501101548,
   10430055236837252648, 11840083180663258601, 13761210420658862357, 14299343276471374635,
   14566680578165727644, 15097957966210449927, 16922976911328602910, 17689382322260857208,
   500013540394364858, 748580250866718886, 1242879168328830382, 1977374033974150939,
   2944078676154940804, 3659926193048069267, 4368137639120453308, 4836135668995329356,
   5532061633213252278, 6448918945643986474, 6902733635092675308, 7801388544844847127]

def sha512H0 : List Nat :=
  [7640891576956012808, 13503953896175478587, 4354685564936845355, 11912009170470909681,
   5840696475078001361, 11170449401992604703, 2270897969802886507, 6620516959819538809]

def load64BE (bs : List Nat) : Nat := bs.foldl (fun a b => a * 256 + b) 0

def store64BE (x : Nat) : List Nat := (List.range 8).map (fun k => (x >>> (8 * (7 - k))) % 256)

def sha512Pad (len : Nat) : List Nat :=
  let z := (128 + 111 - len % 128) % 128
  0x80 :: (List.replicate z 0 ++ (List.range 16).map (fun k => ((8 * len) >>> (8 * (15 - k))) % 256))

def chunks128 (l : List Nat) : List (List Nat) :=
  if l = [] then [] else l.take 128 :: chunks128 (l.drop 128)
termination_by l.length
decreasing_by
  rename_i h
  have hne : l.length ≠ 0 := by simpa [List.length_eq_zero] using h
  simp [List.length_drop]
  omega

def sha512Sched (block : List Nat) : List Nat :=
  let w0 := (List.range 16).map (fun i => load64BE ((block.drop (8 * i)).take 8))
  (List.range 64).foldl (fun ws _ =>
    let n := ws.length
    let s0 := rotr64 (getLane ws (n - 15)) 1 ^^^ rotr64 (getLane ws (n - 15)) 8 ^^^
      (getLane ws (n - 15) >>> 7)
    let s1 := rotr64 (getLane ws (n - 2)) 19 ^^^ rotr64 (getLane ws (n - 2)) 61 ^^^
      (getLane ws (n - 2) >>> 6)
    ws ++ [w64 (getLane ws (n - 16) + s0 + getLane ws (n - 7) + s1)]) w0

def sha512Compress (H : List Nat) (block : List Nat) : List Nat :=
  let W := sha512Sched block
  let final := (List.range 80).foldl (fun (v : List Nat) t =>
    let a := getLane v 0
    let b := getLane v 1
    let c := getLane v 2
    let d := getLane v 3
    let e := getLane v 4
    let f := getLane v 5
    let g := getLane v 6
    let h := getLane v 7
    let S1 := rotr64 e 14 ^^^ rotr64 e 18 ^^^ rotr64 e 41
    let ch := (e &&& f) ^^^ ((e ^^^ 0xFFFFFFFFFFFFFFFF) &&& g)
    let T1 := w64 (h + S1 + ch + getLane sha512K t + getLane W t)
    let S0 := rotr64 a 28 ^^^ rotr64 a 34 ^^^ rotr64 a 39
    let maj := (a &&& b) ^^^ (a &&& c) ^^^ (b &&& c)
    let T2 := w64 (S0 + maj)
    [w64 (T1 + T2), a, b, c, w64 (d + T1), e, f, g]) H
  (List.range 8).map (fun i => w64 (getLane H i + getLane final i))

def sha512Bytes (msg : List Nat) : List Nat :=
  let H := (chunks128 (msg ++ sha512Pad msg.length)).foldl sha512Compress sha512H0
  (H.map store64BE).flatten

def sha512_upper (s : List Char) : List Char := hexUpper (sha512Bytes (utf8Encode s))


/-! Timestamp handling -/

/-- Python `re.sub(r'\.\d+Z$', 'Z', timestamp)`: if the string ends in a
dot, a nonempty digit run, and `Z`, replace that suffix by `Z`. -/
def pyStripMsZ (s : List Char) : List Char :=
  let r := s.reverse
  let ds := (r.drop 1).takeWhile Char.isDigit
  if r.head? = some 'Z' ∧ ds ≠ [] ∧ ((r.drop 1).drop ds.length).head? = some '.' then
    ('Z' :: (r.drop 1).drop (ds.length + 1)).reverse
  else s

/-- `str.replace(c, "")` for a one-character pattern is a filter. -/
def removeChar (c : Char) (s : List Char) : List Char := s.filter (fun x => x != c)

def timestampForSig (ts : List Char) : List Char :=
  removeChar 'T' (removeChar 'Z' (removeChar ':' (removeChar '-' (pyStripMsZ ts))))

def requestSignature (requestId timestamp key : List Char) : List Char :=
  sha3_512_upper (requestId ++ timestampForSig timestamp ++ key)

def digitChar (n : Nat) : Char :=
  match n % 10 with
  | 0 => '0' | 1 => '1' | 2 => '2' | 3 => '3' | 4 => '4'
  | 5 => '5' | 6 => '6' | 7 => '7' | 8 => '8' | _ => '9'

def pad2 (n : Nat) : List Char := [digitChar (n / 10), digitChar n]

def pad4 (n : Nat) : List Char :=
  [digitChar (n / 1000), digitChar (n / 100), digitChar (n / 10), digitChar n]

def navDatePart (y mo d h mi s : Nat) : List Char :=
  pad4 y ++ '-' :: (pad2 mo ++ '-' :: (pad2 d ++ 'T' :: (pad2 h ++ ':' :: (pad2 mi ++ ':' :: pad2 s))))

def mkNavTimestamp (y mo d h mi s : Nat) (ms : List Char) : List Char :=
  navDatePart y mo d h mi s ++ '.' :: (ms ++ ['Z'])

def sigDigits (y mo d h mi s : Nat) : List Char :=
  pad4 y ++ (pad2 mo ++ (pad2 d ++ (pad2 h ++ (pad2 mi ++ pad2 s))))

theorem digitChar_isDigit (n : Nat) : (digitChar n).isDigit = true := by
  have h : n % 10 < 10 := Nat.mod_lt _ (by norm_num)
  unfold digitChar
  rcases hm : n % 10 with _|_|_|_|_|_|_|_|_|_|m
  all_goals simp_all

theorem digitChar_bne {c : Char} (hc : c.isDigit = false) (n : Nat) :
    (digitChar n != c) = true := by
  have h := digitChar_isDigit n
  refine bne_iff_ne.mpr ?_
  intro he
  rw [he, hc] at h
  exact Bool.false_ne_true h

theorem removeChar_nil (c : Char) : removeChar c [] = [] := rfl

theorem removeChar_append (c : Char) (a b : List Char) :
    removeChar c (a ++ b) = removeChar c a ++ removeChar c b := by
  simp [removeChar]

theorem removeChar_cons (c a : Char) (l : List Char) :
    removeChar c (a :: l) = if a != c then a :: removeChar c l else removeChar c l := by
  simp [removeChar, List.filter_cons]

theorem removeChar_digits {c : Char} (hc : c.isDigit = false) {l : List Char}
    (h : l.all Char.isDigit) : removeChar c l = l := by
  refine List.filter_eq_self.mpr ?_
  intro a ha
  have ha2 := List.all_eq_true.mp h a ha
  refine bne_iff_ne.mpr ?_
  intro he
  rw [he, hc] at ha2
  exact Bool.false_ne_true ha2

theorem removeChar_pad2 {c : Char} (hc : c.isDigit = false) (m : Nat) :
    removeChar c (pad2 m) = pad2 m :=
  removeChar_digits hc (by simp [pad2, digitChar_isDigit])

theorem removeChar_pad4 {c : Char} (hc : c.isDigit = false) (m : Nat) :
    removeChar c (pad4 m) = pad4 m :=
  removeChar_digits hc (by simp [pad4, digitChar_isDigit])

theorem takeWhile_append_all {p : α → Bool} {u : List α} (hu : ∀ a ∈ u, p a = true)
    {b : α} (hb : p b = false) (v : List α) : (u ++ b :: v).takeWhile p = u := by
  induction u with
  | nil => simp [List.takeWhile_cons, hb]
  | cons a t ih =>
    rw [List.cons_append, List.takeWhile_cons, hu a (List.mem_cons_self a t)]
    simp [ih (fun x hx => hu x (List.mem_cons_of_mem a hx))]

theorem pyStripMsZ_mk (y mo d h mi s : Nat) {ms : List Char} (hne : ms ≠ [])
    (hd : ms.all Char.isDigit) :
    pyStripMsZ (mkNavTimestamp y mo d h mi s ms) = navDatePart y mo d h mi s ++ ['Z'] := by
  have hrev : (mkNavTimestamp y mo d h mi s ms).reverse =
      'Z' :: (ms.reverse ++ '.' :: (navDatePart y mo d h mi s).reverse) := by
    simp [mkNavTimestamp]
  have hall : ∀ a ∈ ms.reverse, a.isDigit = true := by
    intro a ha
    exact List.all_eq_true.mp hd a (List.mem_reverse.mp ha)
  have htw : (ms.reverse ++ '.' :: (navDatePart y mo d h mi s).reverse).takeWhile Char.isDigit
      = ms.reverse := takeWhile_append_all hall (by decide) _
  have hdrop1 : (ms.reverse ++ '.' :: (navDatePart y mo d h mi s).reverse).drop
      (ms.reverse.length) = '.' :: (navDatePart y mo d h mi s).reverse := List.drop_left _ _
  have hdrop2 : (ms.reverse ++ '.' :: (navDatePart y mo d h mi s).reverse).drop
      (ms.reverse.length + 1) = (navDatePart y mo d h mi s).reverse := by
    rw [List.drop_append (i := 1)]
    rfl
  unfold pyStripMsZ
  rw [hrev]
  simp only [List.drop_one, List.tail_cons, List.head?_cons, htw]
  rw [if_pos ⟨by trivial, by simpa using hne, by rw [hdrop1]; rfl⟩]
  rw [hdrop2]
  simp

theorem timestampForSig_mk (y mo d h mi s : Nat) {ms : List Char} (hne : ms ≠ [])
    (hd : ms.all Char.isDigit) :
    timestampForSig (mkNavTimestamp y mo d h mi s ms) = sigDigits y mo d h mi s := by
  unfold timestampForSig
  rw [pyStripMsZ_mk y mo d h mi s hne hd]
  unfold navDatePart sigDigits
  simp only [removeChar_append, removeChar_cons, removeChar_nil,
    removeChar_pad2 (c := '-') (by decide), removeChar_pad4 (c := '-') (by decide),
    removeChar_pad2 (c := ':') (by decide), removeChar_pad4 (c := ':') (by decide),
    removeChar_pad2 (c := 'Z') (by decide), removeChar_pad4 (c := 'Z') (by decide),
    removeChar_pad2 (c := 'T') (by decide), removeChar_pad4 (c := 'T') (by decide),
    show ('-' != '-') = false from rfl, show ('T' != '-') = true from rfl,
    show ((':' : Char) != '-') = true from rfl, show ('Z' != '-') = true from rfl,
    show ('T' != ':') = true from rfl, show ((':' : Char) != ':') = false from rfl,
    show ('Z' != ':') = true from rfl, show ('T' != 'Z') = true from rfl,
    show ('Z' != 'Z') = false from rfl, show ('T' != 'T') = false from rfl,
    Bool.false_eq_true, eq_self_iff_true,
    if_true, if_false, List.append_nil, List.append_assoc]

theorem hexUpper_length (bs : List Nat) : (hexUpper bs).length = 2 * bs.length := by
  induction bs with
  | nil => rfl
  | cons b t ih =>
    simp only [hexUpper, List.map_cons, List.flatten_cons, List.length_append,
      List.length_cons] at ih ⊢
    simp [byteHexU] at ih ⊢
    omega

theorem store64LE_length (x : Nat) : (store64LE x).length = 8 := by
  simp [store64LE]

theorem sha3_512_bytes_length (msg : List Nat) : (sha3_512_bytes msg).length = 64 := by
  unfold sha3_512_bytes
  rw [List.length_flatten, List.map_map]
  have key : ∀ g : Nat → Nat,
      (List.map (List.length ∘ fun i => store64LE (g i)) (List.range 8)).sum = 64 := by
    intro g
    have he : (List.length ∘ fun i => store64LE (g i)) = fun _ : Nat => 8 := by
      funext i
      simp [Function.comp, store64LE_length]
    rw [he]
    decide
  exact key _

theorem sha3_512_upper_length (s : List Char) : (sha3_512_upper s).length = 128 := by
  rw [sha3_512_upper, hexUpper_length, sha3_512_bytes_length]

def hexUpperChars : List Char := "0123456789ABCDEF".toList

theorem hexDigitU_mem (n : Nat) : hexDigitU n ∈ hexUpperChars := by
  unfold hexDigitU hexUpperChars
  by_cases h : n < ("0123456789ABCDEF".toList).length
  · rw [List.getD_eq_getElem?_getD, List.getElem?_eq_getElem h]
    exact List.getElem_mem h
  · rw [List.getD_eq_getElem?_getD, List.getElem?_eq_none (by omega)]
    decide

theorem sha3_512_upper_mem (s : List Char) :
    ∀ c ∈ sha3_512_upper s, c ∈ hexUpperChars := by
  intro c hc
  rw [sha3_512_upper, hexUpper] at hc
  obtain ⟨l, hl, hcl⟩ := List.mem_flatten.mp hc
  obtain ⟨b, _, rfl⟩ := List.mem_map.mp hl
  simp only [byteHexU, List.mem_cons, List.not_mem_nil, or_false] at hcl
  rcases hcl with rfl | rfl <;> exact hexDigitU_mem _

/-- C1 claim: for every request id, millisecond timestamp and key, the
request signature of `user_block` is deterministic (it is a function of
its arguments), equals SHA3-512 of `requestId ++ 14-digit second
truncated timestamp ++ key` rendered as exactly 128 uppercase
hexadecimal characters, and is invariant under changing only the
fractional-second component: two timestamps differing only in a
(nonempty, all-digit) millisecond part within the same second give
identical signatures.  The signature timestamp is exactly the 14 digits
`YYYYMMDDHHMMSS`. -/
theorem C1_signature_properties
    (requestId key : List Char) (y mo d h mi s : Nat) (ms1 ms2 : List Char)
    (h1ne : ms1 ≠ []) (h1d : ms1.all Char.isDigit)
    (h2ne : ms2 ≠ []) (h2d : ms2.all Char.isDigit) :
    timestampForSig (mkNavTimestamp y mo d h mi s ms1) = sigDigits y mo d h mi s ∧
    (timestampForSig (mkNavTimestamp y mo d h mi s ms1)).length = 14 ∧
    (timestampForSig (mkNavTimestamp y mo d h mi s ms1)).all Char.isDigit = true ∧
    requestSignature requestId (mkNavTimestamp y mo d h mi s ms1) key =
      sha3_512_upper (requestId ++ sigDigits y mo d h mi s ++ key) ∧
    (requestSignature requestId (mkNavTimestamp y mo d h mi s ms1) key).length = 128 ∧
    (∀ c ∈ requestSignature requestId (mkNavTimestamp y mo d h mi s ms1) key,
      c ∈ hexUpperChars) ∧
    requestSignature requestId (mkNavTimestamp y mo d h mi s ms1) key =
      requestSignature requestId (mkNavTimestamp y mo d h mi s ms2) key := by
  have ht1 := timestampForSig_mk y mo d h mi s h1ne h1d
  have ht2 := timestampForSig_mk y mo d h mi s h2ne h2d
  refine ⟨ht1, ?_, ?_, ?_, ?_, ?_, ?_⟩
  · rw [ht1]; simp [sigDigits, pad4, pad2]
  · rw [ht1]; simp [sigDigits, pad4, pad2, digitChar_isDigit]
  · unfold requestSignature; rw [ht1]
  · exact sha3_512_upper_length _
  · exact sha3_512_upper_mem _
  · unfold requestSignature; rw [ht1, ht2]

/-- Witness for `C1_signature_properties` at the concrete instant
`2022-02-01T11:40:44` with millisecond parts "037" and "9". -/
theorem C1_signature_properties_witness :
    ("037".toList ≠ [] ∧ "037".toList.all Char.isDigit = true ∧
     "9".toList ≠ [] ∧ "9".toList.all Char.isDigit = true) ∧
    requestSignature "RID".toList (mkNavTimestamp 2022 2 1 11 40 44 "037".toList) "KEY".toList =
      requestSignature "RID".toList (mkNavTimestamp 2022 2 1 11 40 44 "9".toList) "KEY".toList ∧
    (timestampForSig (mkNavTimestamp 2022 2 1 11 40 44 "037".toList)).length = 14 := by
  refine ⟨⟨by decide, by decide, by decide, by decide⟩, ?_, ?_⟩
  · exact (C1_signature_properties "RID".toList "KEY".toList 2022 2 1 11 40 44
      "037".toList "9".toList (by decide) (by decide) (by decide) (by decide)).2.2.2.2.2.2
  · exact (C1_signature_properties "RID".toList "KEY".toList 2022 2 1 11 40 44
      "037".toList "9".toList (by decide) (by decide) (by decide) (by decide)).2.1

/-! ## Request builders and the credential check (`opg.py` 58-139,
`sync_service.sync_user` 359-370)

`user_block` raises `RuntimeError("Hiányos hitelesítési adatok.")` when
`not (TECH_LOGIN and TECH_PASSWORD and TAX_NUMBER_8DIG)` — the signing
key is *not* part of this check.  The random request id and the current
timestamp are effects of the caller and are passed in as values. -/

/-- The `com:user` block (f-string of `user_block`, lines 80-86). -/
def userBlockXml (login pwdHash tax reqSig : List Char) : List Char :=
  "\n    <com:user>\n      <com:login>".toList ++ login ++
  "</com:login>\n      <com:passwordHash cryptoType=\"SHA-512\">".toList ++ pwdHash ++
  "</com:passwordHash>\n      <com:taxNumber>".toList ++ tax ++
  "</com:taxNumber>\n      <com:requestSignature cryptoType=\"SHA3-512\">".toList ++ reqSig ++
  "</com:requestSignature>\n    </com:user>".toList

/-- `opg.user_block`: checks login/password/tax number (Python truthiness,
so blank means empty string), hashes the password with SHA-512, selects
the exchange or signing key, and computes the SHA3-512 request
signature over the second-truncated 14-digit timestamp. -/
def user_block (login pwd signKey exchKey tax : List Char)
    (requestId timestamp : List Char) (useExchangeKey : Bool) :
    Except (List Char) (List Char) :=
  if login.isEmpty || pwd.isEmpty || tax.isEmpty then
    .error "Hiányos hitelesítési adatok.".toList
  else
    let pwdHash := sha512_upper pwd
    let keyToUse := if useExchangeKey then exchKey else signKey
    .ok (userBlockXml login pwdHash tax (requestSignature requestId timestamp keyToUse))

/-- The `com:header` block (lines 88-95). -/
def header_block (requestId timestamp : List Char) : List Char :=
  "\n    <com:header>\n      <com:requestId>".toList ++ requestId ++
  "</com:requestId>\n      <com:timestamp>".toList ++ timestamp ++
  "</com:timestamp>\n      <com:requestVersion>1.0</com:requestVersion>\n      <com:headerVersion>1.0</com:headerVersion>\n    </com:header>".toList

/-- The constant `api:software` block (lines 45-56, default arguments). -/
def software_block : List Char :=
  "\n    <api:software>\n      <api:softwareId>HU77317012-PYOPGCL</api:softwareId>\n      <api:softwareName>Python OPG Client</api:softwareName>\n      <api:softwareOperation>LOCAL_SOFTWARE</api:softwareOperation>\n      <api:softwareMainVersion>1.0</api:softwareMainVersion>\n      <api:softwareDevName>Bruno Szubally</api:softwareDevName>\n      <api:softwareDevContact>info@example.com</api:softwareDevContact>\n      <api:softwareDevCountryCode>HU</api:softwareDevCountryCode>\n      <api:softwareDevTaxNumber>77317012</api:softwareDevTaxNumber>\n    </api:software>".toList

/-- The SOAP 1.2 envelope (lines 97-104). -/
def envelope (inner : List Char) : List Char :=
  "<?xml version=\"1.0\" encoding=\"UTF-8\"?>\n<soap:Envelope xmlns:soap=\"http://www.w3.org/2003/05/soap-envelope\" xmlns:api=\"http://schemas.nav.gov.hu/OPF/1.0/api\" xmlns:com=\"http://schemas.nav.gov.hu/NTCA/1.0/common\">\n  <soap:Header/>\n  <soap:Body>\n".toList ++
  inner ++ "\n  </soap:Body>\n</soap:Envelope>".toList

/-- `opg.build_status_xml` (lines 106-122): optional AP filter block,
header, user block, software block inside the status request body. -/
def build_status_xml (login pwd signKey exchKey tax : List Char)
    (ap : Option (List Char)) (useExchangeKey : Bool)
    (requestId timestamp : List Char) : Except (List Char) (List Char) :=
  match user_block login pwd signKey exchKey tax requestId timestamp useExchangeKey with
  | .error e => .error e
  | .ok ub =>
    let apXml := match ap with
      | some a =>
        "\n    <api:cashRegisterStatusQuery>\n      <api:APNumberList>\n        <api:APNumber>".toList ++
        a ++ "</api:APNumber>\n      </api:APNumberList>\n    </api:cashRegisterStatusQuery>".toList
      | none => []
    .ok (envelope ("    <api:QueryCashRegisterStatusRequest>\n".toList ++
      header_block requestId timestamp ++ "\n".toList ++ ub ++ "\n".toList ++
      software_block ++ "\n".toList ++ apXml ++
      "\n    </api:QueryCashRegisterStatusRequest>".toList))

/-- `opg.build_file_xml` (lines 124-139).  Note the Python falsy check
`if end else ""`: the `fileNumberEnd` element is omitted both for `None`
and for `0`. -/
def build_file_xml (login pwd signKey exchKey tax : List Char)
    (ap : List Char) (start : Int) (endF : Option Int)
    (requestId timestamp : List Char) : Except (List Char) (List Char) :=
  match user_block login pwd signKey exchKey tax requestId timestamp false with
  | .error e => .error e
  | .ok ub =>
    let endXml := match endF with
      | some e =>
        if e ≠ 0 then
          "        <api:fileNumberEnd>".toList ++ (toString e).toList ++
          "</api:fileNumberEnd>".toList
        else []
      | none => []
    .ok (envelope ("    <api:QueryCashRegisterFileDataRequest>\n".toList ++
      header_block requestId timestamp ++ "\n".toList ++ ub ++ "\n".toList ++
      software_block ++ "\n".toList ++
      "      <api:cashRegisterFileDataQuery>\n        <api:APNumber>".toList ++ ap ++
      "</api:APNumber>\n        <api:fileNumberStart>".toList ++ (toString start).toList ++
      "</api:fileNumberStart>\n".toList ++ endXml ++
      "\n      </api:cashRegisterFileDataQuery>\n    </api:QueryCashRegisterFileDataRequest>".toList))

/-- Python truthiness of an optional string field. -/
def truthyOpt : Option (List Char) → Bool
  | none => false
  | some s => !s.isEmpty

/-- The pre-flight credential check of `sync_user` (lines 367-370):
`required_creds = ['navlogin', 'navpassword', 'signKey', 'taxNumber']`;
when any is falsy the run returns the "Missing NAV credentials" failure
before any request is built. -/
def syncUserCredCheck (navlogin navpassword signKey taxNumber : Option (List Char)) :
    Option SyncResultRec :=
  if !(truthyOpt navlogin && truthyOpt navpassword && truthyOpt signKey &&
      truthyOpt taxNumber) then
    some ⟨false, "Missing NAV credentials".toList, 0, 0⟩
  else none

/-- C9 counterexample: with a blank signing key but non-blank login,
password and tax number, `user_block` does *not* fail — it produces a
request document, and `build_status_xml` produces a full request — so
the claim that building a request fails whenever the signing key is
blank is false on the code (the builder checks only login, password and
tax number). -/
theorem C9_blank_signing_key_counterexample :
    (user_block "a".toList "b".toList [] "x".toList "69785346".toList
      "RID".toList (mkNavTimestamp 2022 2 1 11 40 44 "037".toList) false).isOk = true ∧
    (build_status_xml "a".toList "b".toList [] "x".toList "69785346".toList
      none false "RID".toList (mkNavTimestamp 2022 2 1 11 40 44 "037".toList)).isOk
      = true := by
  constructor
  · rfl
  · rfl

/-- C9 claim, amended: building a request (status or file-range) fails
with the configuration error exactly when login, password or tax number
is blank — the builder does not check the signing key — and no request
document is produced in that case; separately, the sync orchestrator's
pre-flight check rejects a merchant (Missing NAV credentials) exactly
when any of the four fields login, password, signing key, tax number is
blank or absent, so a blank signing key never reaches a request build
during a sync run. -/
theorem C9_credential_check_amended
    (login pwd signKey exchKey tax requestId timestamp : List Char)
    (useExch : Bool) (ap : Option (List Char)) (apf : List Char)
    (start : Int) (endF : Option Int) :
    ((∃ e, user_block login pwd signKey exchKey tax requestId timestamp useExch =
        .error e) ↔ (login = [] ∨ pwd = [] ∨ tax = [])) ∧
    ((∃ e, build_status_xml login pwd signKey exchKey tax ap useExch requestId timestamp =
        .error e) ↔ (login = [] ∨ pwd = [] ∨ tax = [])) ∧
    ((∃ e, build_file_xml login pwd signKey exchKey tax apf start endF requestId timestamp =
        .error e) ↔ (login = [] ∨ pwd = [] ∨ tax = [])) ∧
    ((syncUserCredCheck (some login) (some pwd) (some signKey) (some tax)).isSome ↔
      (login = [] ∨ pwd = [] ∨ signKey = [] ∨ tax = [])) := by
  by_cases hblank : login.isEmpty || pwd.isEmpty || tax.isEmpty
  · have hb : login = [] ∨ pwd = [] ∨ tax = [] := by
      have h := hblank
      simp only [Bool.or_eq_true, List.isEmpty_iff] at h
      tauto
    refine ⟨?_, ?_, ?_, ?_⟩
    · rw [iff_true_intro hb, iff_true]
      exact ⟨_, by unfold user_block; rw [if_pos hblank]⟩
    · rw [iff_true_intro hb, iff_true]
      refine ⟨"Hiányos hitelesítési adatok.".toList, ?_⟩
      unfold build_status_xml user_block
      rw [if_pos hblank]
    · rw [iff_true_intro hb, iff_true]
      refine ⟨"Hiányos hitelesítési adatok.".toList, ?_⟩
      unfold build_file_xml user_block
      rw [if_pos hblank]
    · constructor
      · intro _
        rcases hb with h | h | h
        · exact Or.inl h
        · exact Or.inr (Or.inl h)
        · exact Or.inr (Or.inr (Or.inr h))
      · intro _
        unfold syncUserCredCheck truthyOpt
        rw [if_pos ?_]
        · simp
        · rcases hb with h | h | h <;> simp [h]
  · have hb : ¬(login = [] ∨ pwd = [] ∨ tax = []) := by
      have h := hblank
      simp only [Bool.or_eq_true, List.isEmpty_iff] at h
      tauto
    refine ⟨?_, ?_, ?_, ?_⟩
    · rw [iff_false_intro hb, iff_false]
      rintro ⟨e, he⟩
      unfold user_block at he
      rw [if_neg (by simpa using hblank)] at he
      exact absurd he (by simp)
    · rw [iff_false_intro hb, iff_false]
      rintro ⟨e, he⟩
      unfold build_status_xml user_block at he
      rw [if_neg (by simpa using hblank)] at he
      exact absurd he (by simp)
    · rw [iff_false_intro hb, iff_false]
      rintro ⟨e, he⟩
      unfold build_file_xml user_block at he
      rw [if_neg (by simpa using hblank)] at he
      exact absurd he (by simp)
    · push_neg at hb
      obtain ⟨h1, h2, h3⟩ := hb
      by_cases hk : signKey = []
      · rw [iff_true_intro (Or.inr (Or.inr (Or.inl hk))), iff_true]
        unfold syncUserCredCheck truthyOpt
        rw [if_pos (by simp [hk])]
        simp
      · have : ¬(login = [] ∨ pwd = [] ∨ signKey = [] ∨ tax = []) := by
          simp [h1, h2, h3, hk]
        rw [iff_false_intro this, iff_false]
        unfold syncUserCredCheck truthyOpt
        rw [if_neg ?_]
        · simp
        · simp [List.isEmpty_iff, h1, h2, h3, hk]

/-! ## Generic substring search and replace (shared helpers)

`firstOccIdx` is `bytes.find` / `str.find` for a nonempty pattern;
`replaceSeq` is Python `str.replace` (all non-overlapping occurrences,
left to right). -/

def firstOccIdx [DecidableEq α] (p : List α) : List α → Option Nat
  | [] => none
  | a :: t => if p.isPrefixOf (a :: t) then some 0 else (firstOccIdx p t).map (· + 1)

theorem firstOccIdx_nil [DecidableEq α] (p : List α) : firstOccIdx p [] = none := rfl

/-- Structural worker for `replaceSeq`; the fuel is an upper bound on
the input length, so the guard arm is never taken when called through
`replaceSeq`.  (Structural recursion on the fuel keeps the function
kernel-reducible for `decide`.) -/
def replaceSeqAux [DecidableEq α] (p r : List α) : Nat → List α → List α
  | _, [] => []
  | 0, s => s
  | fuel + 1, a :: t =>
    if p ≠ [] ∧ p.isPrefixOf (a :: t) then
      r ++ replaceSeqAux p r fuel ((a :: t).drop p.length)
    else a :: replaceSeqAux p r fuel t

def replaceSeq [DecidableEq α] (p r : List α) (s : List α) : List α :=
  replaceSeqAux p r s.length s

/-! ## XML document model and receipt parsing
(`sync_service.parse_xml_receipts`, lines 198-270)

`xml.etree.ElementTree` elements carry a tag (which embeds the namespace
as a brace-wrapped prefix), an optional text, and child elements.  A
document that fails to parse (`ET.ParseError`) is modelled as `none`. -/

inductive Xml where
  | elem (tag : List Char) (text : Option (List Char)) (children : List Xml)

def Xml.tag : Xml → List Char
  | .elem t _ _ => t

def Xml.text : Xml → Option (List Char)
  | .elem _ tx _ => tx

def Xml.children : Xml → List Xml
  | .elem _ _ cs => cs

mutual

def subtreeAll : Xml → List Xml
  | .elem _ _ cs => subtreeList cs

def subtreeList : List Xml → List Xml
  | [] => []
  | c :: cs => c :: (subtreeAll c ++ subtreeList cs)

end

def lbraceChar : Char := Char.ofNat 123

def rbraceChar : Char := Char.ofNat 125

/-- Namespace extraction from the root tag: `if root.tag.startswith('{')`
then `re.match(r'\{(.*?)\}', root.tag)` — the non-greedy group is
everything up to the first closing brace. -/
def nsOf (rootTag : List Char) : Option (List Char) :=
  match rootTag with
  | c :: rest =>
    if c = lbraceChar ∧ rest.any (fun x => x = rbraceChar) then
      some (rest.takeWhile (fun x => x ≠ rbraceChar))
    else none
  | [] => none

/-- ElementTree qualified lookup name: `ns:NAME` with `{'ns': uri}`
resolves to the tag `{uri}NAME`; without a namespace it is `NAME`. -/
def qualTag (ns : Option (List Char)) (name : List Char) : List Char :=
  match ns with
  | some u => lbraceChar :: (u ++ rbraceChar :: name)
  | none => name

/-- `Element.find(name)`: first direct child with the given tag. -/
def childFind (e : Xml) (t : List Char) : Option Xml :=
  e.children.find? (fun c => c.tag == t)

/-- `elem is None or not elem.text`: both a missing element text and an
empty text are falsy and skip the receipt. -/
def elemTextTruthy (e : Xml) : Option (List Char) :=
  match e.text with
  | some t => if t.isEmpty then none else some t
  | none => none

/-! ### `datetime.fromisoformat` (CPython ≤ 3.10 subset)

Models the formats this system feeds it: `YYYY-MM-DD`, optionally a
separator character and `HH:MM[:SS[.fff|.ffffff]]`, optionally a
`±HH:MM` offset.  Field validation (month 1-12, day against month
length with leap years, year ≥ 1, hour ≤ 23, minute/second ≤ 59,
offset hour ≤ 23) mirrors `datetime`'s constructor checks. -/

structure PyDateTime where
  year : Nat
  month : Nat
  day : Nat
  hour : Nat
  minute : Nat
  second : Nat
deriving Repr, DecidableEq

def isLeapYear (y : Nat) : Bool := y % 4 == 0 && (y % 100 != 0 || y % 400 == 0)

def daysInMonth (y m : Nat) : Nat :=
  if m = 2 then (if isLeapYear y then 29 else 28)
  else if m = 4 ∨ m = 6 ∨ m = 9 ∨ m = 11 then 30
  else 31

def validYmd (y m d : Nat) : Bool :=
  decide (1 ≤ y ∧ y ≤ 9999 ∧ 1 ≤ m ∧ m ≤ 12 ∧ 1 ≤ d ∧ d ≤ daysInMonth y m)

def d2 (a b : Char) : Option Nat :=
  if a.isDigit && b.isDigit then some ((a.toNat - 48) * 10 + (b.toNat - 48)) else none

def d4 (a b c d : Char) : Option Nat :=
  if a.isDigit && b.isDigit && c.isDigit && d.isDigit then
    some ((a.toNat - 48) * 1000 + (b.toNat - 48) * 100 + (c.toNat - 48) * 10 + (d.toNat - 48))
  else none

def parseTzOpt (t : List Char) : Option Unit :=
  match t with
  | [] => some ()
  | sign :: o1 :: o2 :: ':' :: o3 :: o4 :: [] =>
    if sign == '+' || sign == '-' then
      match d2 o1 o2, d2 o3 o4 with
      | some oh, some om => if oh ≤ 23 && om ≤ 59 then some () else none
      | _, _ => none
    else none
  | _ => none

def parseFracTz (t : List Char) : Option Unit :=
  match t with
  | '.' :: rest =>
    let fds := rest.takeWhile Char.isDigit
    if fds.length = 3 ∨ fds.length = 6 then parseTzOpt (rest.drop fds.length) else none
  | _ => parseTzOpt t

def parseIsoTime (t : List Char) : Option (Nat × Nat × Nat) :=
  match t with
  | h1 :: h2 :: ':' :: mi1 :: mi2 :: rest =>
    match d2 h1 h2, d2 mi1 mi2 with
    | some h, some mi =>
      if h ≤ 23 && mi ≤ 59 then
        match rest with
        | ':' :: s1 :: s2 :: rest2 =>
          match d2 s1 s2 with
          | some sec =>
            if sec ≤ 59 then (parseFracTz rest2).map (fun _ => (h, mi, sec)) else none
          | none => none
        | other => (parseTzOpt other).map (fun _ => (h, mi, 0))
      else none
    | _, _ => none
  | _ => none

def pyFromIso (s : List Char) : Option PyDateTime :=
  match s with
  | y1 :: y2 :: y3 :: y4 :: '-' :: m1 :: m2 :: '-' :: dd1 :: dd2 :: rest =>
    match d4 y1 y2 y3 y4, d2 m1 m2, d2 dd1 dd2 with
    | some y, some mo, some d =>
      if validYmd y mo d then
        match rest with
        | [] => some ⟨y, mo, d, 0, 0, 0⟩
        | _sep :: timetail =>
          (parseIsoTime timetail).map (fun hms => ⟨y, mo, d, hms.1, hms.2.1, hms.2.2⟩)
      else none
    | _, _, _ => none
  | _ => none

/-- The receipt timestamp transform of `parse_xml_receipts` line 239:
`datetime.fromisoformat(text.replace('+01:00', '+00:00').replace('+02:00', '+00:00'))`. -/
def pyReceiptTimestamp (t : List Char) : Option PyDateTime :=
  pyFromIso (replaceSeq "+02:00".toList "+00:00".toList
    (replaceSeq "+01:00".toList "+00:00".toList t))

/-- `strftime('%Y-%m-%d')`. -/
def fmtYmd (y m d : Nat) : List Char := pad4 y ++ '-' :: (pad2 m ++ '-' :: pad2 d)

structure PyReceipt where
  date : List Char
  amount : Int
  cancelled : Bool
  fileNumber : Option Int
deriving Repr, DecidableEq

/-- `re.search(r'_(\d+)$', stem)`: a nonempty trailing digit run
preceded by an underscore. -/
def trailingNumberOf (stem : List Char) : Option Int :=
  let ds := (stem.reverse.takeWhile Char.isDigit).reverse
  if ds ≠ [] ∧ stem.length > ds.length ∧ stem.getD (stem.length - ds.length - 1) ' ' = '_' then
    some ((digitsToNat ds : Nat) : Int)
  else none

def nynTag : List Char := "NYN".toList

def dtsTag : List Char := "DTS".toList

def sumTag : List Char := "SUM".toList

def cncTag : List Char := "CNC".toList

/-- The cancellation test of `parse_xml_receipts` lines 257-258:
`cnc_elem is not None and cnc_elem.text == '1'`. -/
def cncFlag (ns : Option (List Char)) (e : Xml) : Bool :=
  match childFind e (qualTag ns cncTag) with
  | none => false
  | some cnc => cnc.text == some "1".toList

/-- Loop body of `parse_xml_receipts` (lines 231-265): skip on missing
or empty DTS text, on an unparsable timestamp, on a year mismatch, and
on a missing/empty/non-integer SUM; otherwise build the receipt. -/
def nynToReceipt (ns : Option (List Char)) (currentYear : Int) (fileNumber : Option Int)
    (e : Xml) : Option PyReceipt :=
  match (childFind e (qualTag ns dtsTag)).bind elemTextTruthy with
  | none => none
  | some dtsText =>
    match pyReceiptTimestamp dtsText with
    | none => none
    | some dt =>
      if (dt.year : Int) ≠ currentYear then none
      else
        match (childFind e (qualTag ns sumTag)).bind elemTextTruthy with
        | none => none
        | some sumText =>
          match pyIntParse sumText with
          | none => none
          | some amount =>
            some ⟨fmtYmd dt.year dt.month dt.day, amount, cncFlag ns e, fileNumber⟩

/-- `parse_xml_receipts`: `none` models a `ET.ParseError` (malformed
XML), which yields the empty receipt list, not an error. -/
def parse_xml_receipts (doc : Option Xml) (stem : List Char) (currentYear : Int) :
    List PyReceipt :=
  match doc with
  | none => []
  | some root =>
    let fileNumber := trailingNumberOf stem
    let ns := nsOf root.tag
    ((subtreeAll root).filter (fun e => e.tag == qualTag ns nynTag)).filterMap
      (nynToReceipt ns currentYear fileNumber)

/-! ### Aggregation (`sync_service.aggregate_daily_revenues`, lines 273-335) -/

/-- `re.search(r'_(\d{14})_(\d+)$', stem)`: leftmost position where an
underscore is followed by exactly 14 digits, an underscore, and a
nonempty all-digit run reaching the end. -/
def fnmScan : List Char → Option (List Char × List Char)
  | [] => none
  | c :: t =>
    if c = '_' then
      let ts := t.take 14
      if ts.length = 14 ∧ ts.all Char.isDigit then
        match t.drop 14 with
        | '_' :: num =>
          if num ≠ [] ∧ num.all Char.isDigit then some (ts, num) else fnmScan t
        | _ => fnmScan t
      else fnmScan t
    else fnmScan t

/-- `datetime.strptime(timestamp_str[:8], '%Y%m%d')`. -/
def strptimeYmd8 (ds : List Char) : Option (Nat × Nat × Nat) :=
  match ds with
  | a :: b :: c :: d :: e :: f :: g :: h :: [] =>
    match d4 a b c d, d2 e f, d2 g h with
    | some y, some mo, some dy => if validYmd y mo dy then some (y, mo, dy) else none
    | _, _, _ => none
  | _ => none

/-- Python dict assignment `file_data[file_number] = ...`: replaces in
place when the key exists (keeping its position), appends otherwise. -/
def dictUpsert (acc : List (Nat × DailyRevenueRec)) (k : Nat) (v : DailyRevenueRec) :
    List (Nat × DailyRevenueRec) :=
  if acc.any (fun p => p.1 == k) then acc.map (fun p => if p.1 == k then (k, v) else p)
  else acc ++ [(k, v)]

/-- One iteration of the `for xml_path in xml_files` loop: skip files
whose stem does not match the filename pattern or whose embedded date
does not parse; otherwise initialize the zero record and fold the
receipts, skipping cancelled ones. -/
def processFile (currentYear : Int) (acc : List (Nat × DailyRevenueRec))
    (file : List Char × Option Xml) : List (Nat × DailyRevenueRec) :=
  match fnmScan file.1 with
  | none => acc
  | some (ts, numDs) =>
    match strptimeYmd8 (ts.take 8) with
    | none => acc
    | some (y, mo, d) =>
      let n := digitsToNat numDs
      let receipts := parse_xml_receipts file.2 file.1 currentYear
      let counted := receipts.foldl
        (fun (p : Nat × Int) r => if r.cancelled then p else (p.1 + 1, p.2 + r.amount)) (0, 0)
      dictUpsert acc n ⟨n, fmtYmd y mo d, counted.1, counted.2⟩

def aggregate_daily_revenues (files : List (List Char × Option Xml)) (currentYear : Int) :
    List (Nat × DailyRevenueRec) :=
  files.foldl (processFile currentYear) []

theorem countFold_spec (rs : List PyReceipt) : ∀ (c : Nat) (t : Int),
    rs.foldl (fun (p : Nat × Int) r => if r.cancelled then p else (p.1 + 1, p.2 + r.amount))
        (c, t) =
      (c + (rs.filter (fun r => !r.cancelled)).length,
       t + ((rs.filter (fun r => !r.cancelled)).map PyReceipt.amount).sum) := by
  induction rs with
  | nil => intro c t; simp
  | cons r rest ih =>
    intro c t
    by_cases hc : r.cancelled = true
    · simp [hc, ih]
    · have hc2 : r.cancelled = false := by simpa using hc
      rw [List.foldl_cons]
      simp only [hc2, if_false, Bool.false_eq_true, ih]
      rw [List.filter_cons_of_pos (by simp [hc2])]
      simp only [List.length_cons, List.map_cons, List.sum_cons, Prod.mk.injEq]
      constructor
      · omega
      · ring

/-- C10 claim: a file whose base name does not end in an
underscore-separated 14-digit timestamp, an underscore and a file
number is skipped entirely by the aggregation — it produces no
`DailyRevenue` record (not even a zero record) and the run continues,
producing exactly the result of the run without that file. -/
theorem C10_unparsable_filename_skipped
    (files₁ files₂ : List (List Char × Option Xml)) (stem : List Char)
    (doc : Option Xml) (year : Int) (h : fnmScan stem = none) :
    aggregate_daily_revenues (files₁ ++ (stem, doc) :: files₂) year =
      aggregate_daily_revenues (files₁ ++ files₂) year := by
  unfold aggregate_daily_revenues
  rw [List.foldl_append, List.foldl_append, List.foldl_cons]
  have hstep : ∀ acc, processFile year acc (stem, doc) = acc := by
    intro acc
    unfold processFile
    rw [h]
  rw [hstep]

/-- Witness for `C10_unparsable_filename_skipped`: the stem
"response" has no trailing `_<14 digits>_<digits>` pattern, so a file
with that name contributes nothing next to a well-named file. -/
theorem C10_unparsable_filename_skipped_witness :
    fnmScan "response".toList = none ∧
    aggregate_daily_revenues [("response".toList, none)] 2025 =
      aggregate_daily_revenues [] 2025 := by
  refine ⟨by decide, ?_⟩
  exact C10_unparsable_filename_skipped [] [] "response".toList none 2025 (by decide)

/-- C6 counterexample: the stem `A29200455_69785346_20251370000000_7`
end-matches the filename pattern (14 digits, then `_7`), yet its date
part `20251370` is not a valid calendar date (month 13), so
`datetime.strptime` raises and the file is skipped: aggregation
produces *no* record for it, contradicting the claim that every
processed file yields exactly one zero record. -/
theorem C6_invalid_date_counterexample :
    fnmScan "A29200455_69785346_20251370000000_7".toList =
      some ("20251370000000".toList, "7".toList) ∧
    strptimeYmd8 ("20251370000000".toList.take 8) = none ∧
    aggregate_daily_revenues [("A29200455_69785346_20251370000000_7".toList, none)] 2025 =
      [] := by
  refine ⟨by decide, by decide, by decide⟩

/-- C6 claim, amended: for every file whose stem end-matches
`_<14 digits>_<file number>` *and* whose first eight timestamp digits
form a valid calendar date, aggregation yields exactly one
`DailyRevenue` record, keyed and numbered by the file number, dated
from the filename timestamp; when the XML is malformed (parse failure,
modelled as `none`) or every parsed receipt is cancelled, its
`receipts_count` and `total_revenue` are 0.  Malformed XML never aborts
the run (the aggregation is a total function and still yields the zero
record).  A well-named file with an invalid embedded date is skipped
like a badly-named one (see the counterexample). -/
theorem C6_zero_fill_amended
    (stem : List Char) (doc : Option Xml) (year : Int)
    (ts num : List Char) (y mo d : Nat)
    (hname : fnmScan stem = some (ts, num))
    (hdate : strptimeYmd8 (ts.take 8) = some (y, mo, d))
    (hzero : doc = none ∨ ∀ r ∈ parse_xml_receipts doc stem year, r.cancelled = true) :
    aggregate_daily_revenues [(stem, doc)] year =
      [(digitsToNat num, ⟨digitsToNat num, fmtYmd y mo d, 0, 0⟩)] := by
  have hall : ∀ r ∈ parse_xml_receipts doc stem year, r.cancelled = true := by
    rcases hzero with rfl | h
    · intro r hr
      simp [parse_xml_receipts] at hr
    · exact h
  have hfold : (parse_xml_receipts doc stem year).foldl
      (fun (p : Nat × Int) r => if r.cancelled then p else (p.1 + 1, p.2 + r.amount)) (0, 0) =
      (0, 0) := by
    have hfilter : (parse_xml_receipts doc stem year).filter (fun r => !r.cancelled) = [] := by
      rw [List.filter_eq_nil_iff]
      intro r hr
      simp [hall r hr]
    rw [countFold_spec, hfilter]
    simp
  unfold aggregate_daily_revenues
  rw [List.foldl_cons, List.foldl_nil]
  unfold processFile
  rw [hname]
  dsimp only
  rw [hdate]
  dsimp only
  rw [hfold]
  unfold dictUpsert
  simp

/-- Witness for `C6_zero_fill_amended`: a well-named file with
malformed XML yields exactly the zero record for file number 1079. -/
theorem C6_zero_fill_amended_witness :
    fnmScan "A29200455_69785346_20251119174852_1079".toList =
      some ("20251119174852".toList, "1079".toList) ∧
    strptimeYmd8 ("20251119174852".toList.take 8) = some (2025, 11, 19) ∧
    aggregate_daily_revenues [("A29200455_69785346_20251119174852_1079".toList, none)] 2025 =
      [(1079, ⟨1079, fmtYmd 2025 11 19, 0, 0⟩)] := by
  refine ⟨by decide, by decide, ?_⟩
  exact C6_zero_fill_amended "A29200455_69785346_20251119174852_1079".toList none 2025
    "20251119174852".toList "1079".toList 2025 11 19 (by decide) (by decide) (Or.inl rfl)

/-- A receipt element (`NYN`) with the given timestamp text, amount text
and optional cancellation flag text. -/
def mkNyn (dts : List Char) (amt : List Char) (cnc : Option (List Char)) : Xml :=
  .elem nynTag none
    ([Xml.elem dtsTag (some dts) [], Xml.elem sumTag (some amt) []] ++
      (match cnc with
       | some c => [Xml.elem cncTag (some c) []]
       | none => []))

/-- The round-trip example document: three receipts in the target year,
amounts 1000 (kept), 2000 (cancelled), 3000 (kept). -/
def exampleRowsDoc : Xml :=
  .elem "ROWS".toList none
    [mkNyn "2025-11-19T17:48:52+01:00".toList "1000".toList none,
     mkNyn "2025-11-19T17:50:00+01:00".toList "2000".toList (some "1".toList),
     mkNyn "2025-11-19T17:55:10+01:00".toList "3000".toList (some "0".toList)]

def exampleStem : List Char := "A29200455_69785346_20251119174852_1079".toList

/-- C5 claim: a (well-formed) receipt element — one with a nonempty DTS
text whose timestamp parses and a nonempty SUM text that parses as an
integer — produces a receipt exactly when its calendar year equals the
target year; the produced receipt carries the parsed amount and the
cancellation flag (`CNC` present with text "1"); it is counted into the
file's `receipts_count`/`total_revenue` (i.e. survives the
non-cancelled filter that feeds the per-file fold) exactly when the
year matches and the flag is not "1"; receipts from another year are
excluded entirely; and the concrete three-receipt file (1000, 2000
cancelled, 3000) aggregates to `receipts_count = 2`,
`total_revenue = 4000`. -/
theorem C5_receipt_filter
    (ns : Option (List Char)) (year : Int) (fn : Option Int) (e : Xml)
    (dtsText : List Char) (dt : PyDateTime) (sumText : List Char) (a : Int)
    (hdts : (childFind e (qualTag ns dtsTag)).bind elemTextTruthy = some dtsText)
    (hparse : pyReceiptTimestamp dtsText = some dt)
    (hsum : (childFind e (qualTag ns sumTag)).bind elemTextTruthy = some sumText)
    (hamt : pyIntParse sumText = some a) :
    ((nynToReceipt ns year fn e).isSome ↔ (dt.year : Int) = year) ∧
    (∀ r, nynToReceipt ns year fn e = some r →
      r.amount = a ∧ r.cancelled = cncFlag ns e ∧
      r.date = fmtYmd dt.year dt.month dt.day ∧ r.fileNumber = fn) ∧
    ((∃ r, nynToReceipt ns year fn e = some r ∧ r.cancelled = false) ↔
      ((dt.year : Int) = year ∧ cncFlag ns e = false)) ∧
    ((dt.year : Int) ≠ year → nynToReceipt ns year fn e = none) ∧
    (aggregate_daily_revenues [(exampleStem, some exampleRowsDoc)] 2025 =
      [(1079, ⟨1079, fmtYmd 2025 11 19, 2, 4000⟩)]) := by
  have hstep : nynToReceipt ns year fn e =
      (if (dt.year : Int) ≠ year then none
       else some ⟨fmtYmd dt.year dt.month dt.day, a, cncFlag ns e, fn⟩) := by
    unfold nynToReceipt
    rw [hdts]
    dsimp only
    rw [hparse]
    dsimp only
    by_cases hy : (dt.year : Int) ≠ year
    · rw [if_pos hy, if_pos hy]
    · rw [if_neg hy, if_neg hy, hsum]
      dsimp only
      rw [hamt]
  refine ⟨?_, ?_, ?_, ?_, ?_⟩
  · rw [hstep]
    by_cases hy : (dt.year : Int) = year
    · simp [hy]
    · simp [hy]
  · intro r hr
    rw [hstep] at hr
    by_cases hy : (dt.year : Int) ≠ year
    · rw [if_pos hy] at hr
      exact absurd hr (by simp)
    · rw [if_neg hy] at hr
      cases hr
      exact ⟨rfl, rfl, rfl, rfl⟩
  · rw [hstep]
    constructor
    · rintro ⟨r, hr, hcanc⟩
      by_cases hy : (dt.year : Int) ≠ year
      · rw [if_pos hy] at hr
        exact absurd hr (by simp)
      · rw [if_neg hy] at hr
        cases hr
        exact ⟨by push_neg at hy; exact hy, hcanc⟩
    · rintro ⟨hy, hcanc⟩
      refine ⟨⟨fmtYmd dt.year dt.month dt.day, a, cncFlag ns e, fn⟩, ?_, hcanc⟩
      rw [if_neg (by simp [hy])]
  · intro hy
    rw [hstep, if_pos hy]
  · decide

/-- Witness for `C5_receipt_filter`: the cancelled 2000-amount receipt
of the example document, in a 2025 run — its timestamp parses to
year 2025, so a receipt is produced, but it does not survive the
non-cancelled filter. -/
theorem C5_receipt_filter_witness :
    ((childFind (mkNyn "2025-11-19T17:50:00+01:00".toList "2000".toList (some "1".toList))
        (qualTag none dtsTag)).bind elemTextTruthy =
      some "2025-11-19T17:50:00+01:00".toList) ∧
    (pyReceiptTimestamp "2025-11-19T17:50:00+01:00".toList =
      some ⟨2025, 11, 19, 17, 50, 0⟩) ∧
    ((nynToReceipt none 2025 (some 1079)
        (mkNyn "2025-11-19T17:50:00+01:00".toList "2000".toList (some "1".toList))).isSome ↔
      ((2025 : Int) = 2025)) ∧
    ¬(∃ r, nynToReceipt none 2025 (some 1079)
        (mkNyn "2025-11-19T17:50:00+01:00".toList "2000".toList (some "1".toList)) = some r ∧
        r.cancelled = false) := by
  have h := C5_receipt_filter none 2025 (some 1079)
    (mkNyn "2025-11-19T17:50:00+01:00".toList "2000".toList (some "1".toList))
    "2025-11-19T17:50:00+01:00".toList ⟨2025, 11, 19, 17, 50, 0⟩ "2000".toList 2000
    (by decide) (by decide) (by decide) (by decide)
  refine ⟨by decide, by decide, h.1, ?_⟩
  intro hex
  have := h.2.2.1.mp hex
  have hcnc : cncFlag none
      (mkNyn "2025-11-19T17:50:00+01:00".toList "2000".toList (some "1".toList)) = true := by
    decide
  rw [hcnc] at this
  exact absurd this.2 (by decide)

/-! ## P7B extraction (`opg.py`, lines 204-274)

`extract_p7b_to_xml` tries the OpenSSL CMS tool first
(`try_openssl_cms`) and falls back to a pattern search over the
tolerantly decoded container bytes (`extract_xml_from_binary`).  The
regex engine semantics (leftmost match, lazy `.*?`, greedy `[^>]*` with
backtracking) are implemented directly for the three patterns the code
uses.  `re.IGNORECASE` is modelled as ASCII case insensitivity
(`Char.toLower`), which coincides with Python on the ASCII patterns
involved. -/

/-- UTF-8 decoding with `errors='ignore'`: invalid bytes or sequences
are skipped, at one-byte granularity.  CPython's decoder instead drops
the maximal subpart of an ill-formed sequence at once, but the decoded
text is identical: the extra bytes this model re-examines one by one
are continuation bytes (`0x80`-`0xBF`), which can never begin a valid
sequence, so both decoders discard exactly the same bytes and emit the
same characters. -/
def utf8DecodeIgnoreAux : Nat → List Nat → List Char
  | _, [] => []
  | 0, _ => []
  | fuel + 1, b :: rest =>
    if b < 0x80 then Char.ofNat b :: utf8DecodeIgnoreAux fuel rest
    else if 0xC2 ≤ b ∧ b ≤ 0xDF then
      match rest with
      | b2 :: rest2 =>
        if 0x80 ≤ b2 ∧ b2 ≤ 0xBF then
          Char.ofNat ((b - 0xC0) * 64 + (b2 - 0x80)) :: utf8DecodeIgnoreAux fuel rest2
        else utf8DecodeIgnoreAux fuel rest
      | [] => []
    else if 0xE0 ≤ b ∧ b ≤ 0xEF then
      match rest with
      | b2 :: b3 :: rest3 =>
        if (0x80 ≤ b2 ∧ b2 ≤ 0xBF) ∧ (0x80 ≤ b3 ∧ b3 ≤ 0xBF) ∧
            (b = 0xE0 → 0xA0 ≤ b2) ∧ (b = 0xED → b2 ≤ 0x9F) then
          Char.ofNat ((b - 0xE0) * 4096 + (b2 - 0x80) * 64 + (b3 - 0x80)) ::
            utf8DecodeIgnoreAux fuel rest3
        else utf8DecodeIgnoreAux fuel rest
      | _ => utf8DecodeIgnoreAux fuel rest
    else if 0xF0 ≤ b ∧ b ≤ 0xF4 then
      match rest with
      | b2 :: b3 :: b4 :: rest4 =>
        if (0x80 ≤ b2 ∧ b2 ≤ 0xBF) ∧ (0x80 ≤ b3 ∧ b3 ≤ 0xBF) ∧ (0x80 ≤ b4 ∧ b4 ≤ 0xBF) ∧
            (b = 0xF0 → 0x90 ≤ b2) ∧ (b = 0xF4 → b2 ≤ 0x8F) then
          Char.ofNat ((b - 0xF0) * 262144 + (b2 - 0x80) * 4096 + (b3 - 0x80) * 64 +
            (b4 - 0x80)) :: utf8DecodeIgnoreAux fuel rest4
        else utf8DecodeIgnoreAux fuel rest
      | _ => utf8DecodeIgnoreAux fuel rest
    else utf8DecodeIgnoreAux fuel rest

def utf8DecodeIgnore (l : List Nat) : List Char := utf8DecodeIgnoreAux l.length l

/-- Strict UTF-8 decoding (`bytes.decode('utf-8')`): `none` models
`UnicodeDecodeError`. -/
def utf8DecodeStrictAux : Nat → List Nat → Option (List Char)
  | _, [] => some []
  | 0, _ => none
  | fuel + 1, b :: rest =>
    if b < 0x80 then (utf8DecodeStrictAux fuel rest).map (Char.ofNat b :: ·)
    else if 0xC2 ≤ b ∧ b ≤ 0xDF then
      match rest with
      | b2 :: rest2 =>
        if 0x80 ≤ b2 ∧ b2 ≤ 0xBF then
          (utf8DecodeStrictAux fuel rest2).map
            (Char.ofNat ((b - 0xC0) * 64 + (b2 - 0x80)) :: ·)
        else none
      | [] => none
    else if 0xE0 ≤ b ∧ b ≤ 0xEF then
      match rest with
      | b2 :: b3 :: rest3 =>
        if (0x80 ≤ b2 ∧ b2 ≤ 0xBF) ∧ (0x80 ≤ b3 ∧ b3 ≤ 0xBF) ∧
            (b = 0xE0 → 0xA0 ≤ b2) ∧ (b = 0xED → b2 ≤ 0x9F) then
          (utf8DecodeStrictAux fuel rest3).map
            (Char.ofNat ((b - 0xE0) * 4096 + (b2 - 0x80) * 64 + (b3 - 0x80)) :: ·)
        else none
      | _ => none
    else if 0xF0 ≤ b ∧ b ≤ 0xF4 then
      match rest with
      | b2 :: b3 :: b4 :: rest4 =>
        if (0x80 ≤ b2 ∧ b2 ≤ 0xBF) ∧ (0x80 ≤ b3 ∧ b3 ≤ 0xBF) ∧ (0x80 ≤ b4 ∧ b4 ≤ 0xBF) ∧
            (b = 0xF0 → 0x90 ≤ b2) ∧ (b = 0xF4 → b2 ≤ 0x8F) then
          (utf8DecodeStrictAux fuel rest4).map
            (Char.ofNat ((b - 0xF0) * 262144 + (b2 - 0x80) * 4096 + (b3 - 0x80) * 64 +
              (b4 - 0x80)) :: ·)
        else none
      | _ => none
    else none

def utf8DecodeStrict (l : List Nat) : Option (List Char) := utf8DecodeStrictAux l.length l

/-- ASCII case-insensitive character comparison (`re.IGNORECASE`). -/
def ciEqC (a b : Char) : Bool := a.toLower == b.toLower

/-- Case-insensitive "is prefix of". -/
def ciStarts : List Char → List Char → Bool
  | [], _ => true
  | _ :: _, [] => false
  | a :: ps, b :: ss => ciEqC a b && ciStarts ps ss

/-- Case-insensitive "occurs somewhere" (at any start position). -/
def ciOcc (p : List Char) : List Char → Bool
  | [] => ciStarts p []
  | a :: t => ciStarts p (a :: t) || ciOcc p t

/-- Case-sensitive substring test (the Python `in` operator). -/
def containsSeq [DecidableEq α] (p s : List α) : Bool := (firstOccIdx p s).isSome

/-- Match of `<\?xml[^>]*\?>` at the start of `s`: after the literal
`<?xml`, the greedy `[^>]*` with backtracking succeeds exactly when the
first `>` exists and is preceded by `?`; the match then ends at that
`>`.  Returns the matched length. -/
def declMatchLen (ci : Bool) (s : List Char) : Option Nat :=
  if (if ci then ciStarts "<?xml".toList s else "<?xml".toList.isPrefixOf s) then
    match (s.drop 5).findIdx? (fun c => c == '>') with
    | none => none
    | some k =>
      if 1 ≤ k ∧ (s.drop 5).getD (k - 1) ' ' = '?' then some (5 + k + 1) else none
  else none

def wordCharB (c : Char) : Bool := c.isAlphanum || c == '_'

/-- Match of `<TAG\b[^>]*>` (case-insensitive) at the start of `s`:
literal `<TAG`, a word boundary (the next character must not be a word
character), then everything up to and including the first `>`. -/
def openTagLen (tag : List Char) (s : List Char) : Option Nat :=
  if ciStarts ('<' :: tag) s then
    let after := s.drop (1 + tag.length)
    if wordCharB (after.headD ' ') then none
    else
      match after.findIdx? (fun c => c == '>') with
      | none => none
      | some k => some (1 + tag.length + k + 1)
  else none

/-- Match of the literal `</TAG>` (case-insensitive) at the start. -/
def closeLen (tag : List Char) (s : List Char) : Option Nat :=
  if ciStarts ('<' :: '/' :: (tag ++ ['>'])) s then some (tag.length + 3) else none

/-- First position (with the match length) at which a matcher succeeds:
the scan of a lazy `.*?` / of `re.search` start positions. -/
def findFromLen (m : List Char → Option Nat) : List Char → Option (Nat × Nat)
  | [] => (m []).map (fun k => (0, k))
  | c :: t =>
    match m (c :: t) with
    | some k => some (0, k)
    | none => (findFromLen m t).map (fun p => (p.1 + 1, p.2))

/-- `.*?<TAG\b[^>]*>.*?</TAG>` at the start of `s`: scan opening-tag
candidates left to right; for each, take the first closing tag after it;
if none exists, backtrack to the next opening candidate.  Returns the
consumed length. -/
def openCloseScan (tag : List Char) : List Char → Option Nat
  | [] => none
  | c :: t =>
    match openTagLen tag (c :: t) with
    | some o =>
      match findFromLen (closeLen tag) ((c :: t).drop o) with
      | some p => some (o + p.1 + p.2)
      | none => (openCloseScan tag t).map (· + 1)
    | none => (openCloseScan tag t).map (· + 1)

/-- Full pattern `(<\?xml[^>]*\?>.*?<TAG\b[^>]*>.*?</TAG>)` at the start
of `s` (DOTALL, IGNORECASE). -/
def xmlRowsMatchLen (tag : List Char) (s : List Char) : Option Nat :=
  match declMatchLen true s with
  | none => none
  | some d => (openCloseScan tag (s.drop d)).map (fun r => d + r)

/-- `re.search` of the full pattern: leftmost start position wins;
returns the matched substring (group 1 = the whole match). -/
def xmlSearch (tag : List Char) (cs : List Char) : Option (List Char) :=
  (findFromLen (xmlRowsMatchLen tag) cs).map (fun p => (cs.drop p.1).take p.2)

/-- First succeeding value of a positional matcher (generic
`re.search`). -/
def findFirstSome (m : List Char → Option α) : List Char → Option α
  | [] => m []
  | c :: t =>
    match m (c :: t) with
    | some v => some v
    | none => findFirstSome m t

/-- Match of `<\?xml[^>]*\?>\s*<([A-Z][A-Za-z0-9_]*)\b` (case-sensitive,
opg.py line 236) at the start: returns the captured root tag name. -/
def sniffAt (s : List Char) : Option (List Char) :=
  match declMatchLen false s with
  | none => none
  | some d =>
    match (s.drop d).dropWhile isPyWs with
    | '<' :: u =>
      match u with
      | c0 :: _ => if c0.isUpper then some (u.takeWhile wordCharB) else none
      | [] => none
    | _ => none

def sniffRoot (cs : List Char) : Option (List Char) := findFirstSome sniffAt cs

def rowsTagStr : List Char := "ROWS".toList

/-- `opg.extract_xml_from_binary`: decode the container bytes with
`errors='ignore'`, search for the `<?xml ...?> ... <ROWS ...> ...
</ROWS>` pattern, and on failure sniff the actual root tag from the
declaration and retry with it.  Any failure yields `none`, never an
exception (the whole body is wrapped in `try/except`). -/
def extract_xml_from_binary (contents : List Nat) : Option (List Char) :=
  match xmlSearch rowsTagStr (utf8DecodeIgnore contents) with
  | some r => some r
  | none =>
    match sniffRoot (utf8DecodeIgnore contents) with
    | some tag => xmlSearch tag (utf8DecodeIgnore contents)
    | none => none

/-- Outcome of the `subprocess.run(["openssl", "cms", ...])` call:
`none` at the `try_openssl_cms` entry models a raised
`TimeoutExpired`/`FileNotFoundError`/`SubprocessError` (tool absent or
timed out). -/
structure ToolRun where
  returncode : Int
  stdout : List Nat
deriving Repr, DecidableEq

/-- `opg.try_openssl_cms`: accept the tool output only when the run
succeeded (exit 0, nonempty stdout), the stdout decodes as UTF-8, and
the decoded text contains `<?xml`; every failure is `None`. -/
def try_openssl_cms (run? : Option ToolRun) : Option (List Char) :=
  match run? with
  | none => none
  | some r =>
    if r.returncode = 0 ∧ r.stdout ≠ [] then
      match utf8DecodeStrict r.stdout with
      | some d => if containsSeq "<?xml".toList d then some d else none
      | none => none
    else none

inductive P7bMethod where
  | openssl
  | regex
deriving Repr, DecidableEq

/-- `opg.extract_p7b_to_xml`: `false` when the file does not exist or
both strategies fail; otherwise the recovered XML (the content written
to the output path) together with the strategy that produced it. -/
def extract_p7b_to_xml (fileExists : Bool) (run? : Option ToolRun) (contents : List Nat) :
    Bool × Option (List Char × P7bMethod) :=
  if !fileExists then (false, none)
  else
    match try_openssl_cms run? with
    | some x => (true, some (x, .openssl))
    | none =>
      match extract_xml_from_binary contents with
      | some x => (true, some (x, .regex))
      | none => (false, none)

def rowsOpenStr : List Char := "<ROWS>".toList

def rowsCloseStr : List Char := "</ROWS>".toList

def xmlDeclStr : List Char := "<?xml version=\"1.0\"?>".toList

/-- The embedded payload of the C7 recovery property:
`<?xml version="1.0"?><ROWS>` ++ b ++ `</ROWS>`. -/
def rowsTarget (b : List Char) : List Char :=
  xmlDeclStr ++ (rowsOpenStr ++ (b ++ rowsCloseStr))

theorem findFromLen_eq (m : List Char → Option Nat) (s : List Char) (n k : Nat)
    (h1 : ∀ i, i < n → m (s.drop i) = none) (h2 : m (s.drop n) = some k)
    (h3 : n ≤ s.length) : findFromLen m s = some (n, k) := by
  induction s generalizing n with
  | nil =>
    have hn : n = 0 := by simpa using h3
    subst hn
    simp only [List.drop_nil] at h2
    simp [findFromLen, h2]
  | cons c t ih =>
    cases n with
    | zero =>
      simp only [List.drop_zero] at h2
      simp [findFromLen, h2]
    | succ n =>
      have h0 := h1 0 (Nat.succ_pos n)
      simp only [List.drop_zero] at h0
      have ihr := ih n (fun i hi => by
          have := h1 (i + 1) (by omega)
          simpa using this)
        (by simpa using h2) (by simpa using h3)
      simp [findFromLen, h0, ihr]

theorem ciEqC_refl (a : Char) : ciEqC a a = true := by simp [ciEqC]

theorem ciStarts_self_append (p w : List Char) : ciStarts p (p ++ w) = true := by
  induction p with
  | nil => rfl
  | cons a ps ih => simp [ciStarts, ciEqC_refl, ih]

theorem ciStarts_append_left (p u v : List Char) (h : p.length ≤ u.length) :
    ciStarts p (u ++ v) = ciStarts p u := by
  induction p generalizing u with
  | nil => cases u <;> rfl
  | cons a ps ih =>
    cases u with
    | nil => simp at h
    | cons b us =>
      show (ciEqC a b && ciStarts ps (us ++ v)) = (ciEqC a b && ciStarts ps us)
      rw [ih us (by simpa using h)]

theorem ciStarts_append_right (p u v : List Char) (h : ciStarts p (u ++ v) = true)
    (hlen : u.length ≤ p.length) : ciStarts (p.drop u.length) v = true := by
  induction u generalizing p with
  | nil => simpa using h
  | cons a us ih =>
    cases p with
    | nil => simp at hlen
    | cons x ps =>
      simp only [List.cons_append, ciStarts, Bool.and_eq_true] at h
      simpa using ih ps h.2 (by simpa using hlen)

theorem ciOcc_of_drop (p b : List Char) (i : Nat) (hi : i < b.length)
    (h : ciStarts p (b.drop i) = true) : ciOcc p b = true := by
  induction b generalizing i with
  | nil => simp at hi
  | cons c t ih =>
    cases i with
    | zero =>
      simp only [List.drop_zero] at h
      simp [ciOcc, h]
    | succ i =>
      have := ih i (by simpa using hi) (by simpa using h)
      simp [ciOcc, this]

theorem rowsClose_drop_ciStarts (m : Nat) (h1 : 1 ≤ m) (h2 : m ≤ 6) (w : List Char) :
    ciStarts (rowsCloseStr.drop m) (rowsCloseStr ++ w) = false := by
  interval_cases m <;> rfl

theorem closeLen_pattern : ('<' :: '/' :: (rowsTagStr ++ ['>'])) = rowsCloseStr := rfl

theorem closeLen_scan (b w : List Char) (hb : ciOcc rowsCloseStr b = false) :
    findFromLen (closeLen rowsTagStr) ((b ++ rowsCloseStr) ++ w) = some (b.length, 7) := by
  have h7 : rowsCloseStr.length = 7 := rfl
  apply findFromLen_eq
  · intro i hi
    unfold closeLen
    rw [closeLen_pattern, if_neg ?_]
    rw [Bool.not_eq_true]
    have hsplit : ((b ++ rowsCloseStr) ++ w).drop i = b.drop i ++ (rowsCloseStr ++ w) := by
      rw [List.append_assoc, List.drop_append_of_le_length (by omega)]
    rw [hsplit]
    by_cases hcase : i + 7 ≤ b.length
    · rw [ciStarts_append_left _ _ _ (by rw [h7, List.length_drop]; omega)]
      refine Bool.eq_false_iff.mpr ?_
      intro htrue
      rw [ciOcc_of_drop rowsCloseStr b i hi htrue] at hb
      exact absurd hb (by decide)
    · refine Bool.eq_false_iff.mpr ?_
      intro htrue
      have hlen : (b.drop i).length ≤ rowsCloseStr.length := by
        rw [h7, List.length_drop]
        omega
      have hstr := ciStarts_append_right rowsCloseStr (b.drop i) (rowsCloseStr ++ w) htrue hlen
      rw [List.length_drop] at hstr
      have hm1 : 1 ≤ b.length - i := by omega
      have hm2 : b.length - i ≤ 6 := by omega
      rw [rowsClose_drop_ciStarts (b.length - i) hm1 hm2 w] at hstr
      exact absurd hstr (by decide)
  · have hdrop : ((b ++ rowsCloseStr) ++ w).drop b.length = rowsCloseStr ++ w := by
      rw [List.append_assoc]
      exact List.drop_left _ _
    rw [hdrop]
    unfold closeLen
    rw [closeLen_pattern, if_pos (ciStarts_self_append _ _)]
    rfl
  · simp [List.length_append]

theorem openTagLen_rows (x : List Char) :
    openTagLen rowsTagStr ('<' :: 'R' :: 'O' :: 'W' :: 'S' :: '>' :: x) = some 6 := rfl

theorem openCloseScan_rows (b w : List Char) (hb : ciOcc rowsCloseStr b = false) :
    openCloseScan rowsTagStr (rowsOpenStr ++ ((b ++ rowsCloseStr) ++ w)) =
      some (6 + b.length + 7) := by
  have hexp : rowsOpenStr ++ ((b ++ rowsCloseStr) ++ w) =
      '<' :: 'R' :: 'O' :: 'W' :: 'S' :: '>' :: ((b ++ rowsCloseStr) ++ w) := rfl
  rw [hexp]
  rw [openCloseScan, openTagLen_rows]
  dsimp only
  have hdrop : ('<' :: 'R' :: 'O' :: 'W' :: 'S' :: '>' :: ((b ++ rowsCloseStr) ++ w)).drop 6 =
      (b ++ rowsCloseStr) ++ w := rfl
  rw [hdrop, closeLen_scan b w hb]

theorem declMatchLen_decl (ci : Bool) (v : List Char) :
    declMatchLen ci (xmlDeclStr ++ v) = some 21 := by
  cases ci <;> rfl

theorem xmlDeclStr_length : xmlDeclStr.length = 21 := rfl

theorem xmlMatch_target (b w : List Char) (hb : ciOcc rowsCloseStr b = false) :
    xmlRowsMatchLen rowsTagStr (rowsTarget b ++ w) = some ((rowsTarget b).length) := by
  have hsh : rowsTarget b ++ w = xmlDeclStr ++ (rowsOpenStr ++ ((b ++ rowsCloseStr) ++ w)) := by
    simp [rowsTarget, List.append_assoc]
  rw [hsh]
  unfold xmlRowsMatchLen
  rw [declMatchLen_decl]
  dsimp only
  have hdrop : (xmlDeclStr ++ (rowsOpenStr ++ ((b ++ rowsCloseStr) ++ w))).drop 21 =
      rowsOpenStr ++ ((b ++ rowsCloseStr) ++ w) := by
    rw [show (21 : Nat) = xmlDeclStr.length from rfl]
    exact List.drop_left _ _
  rw [hdrop, openCloseScan_rows b w hb]
  have hlen : (rowsTarget b).length = 21 + (6 + b.length + 7) := by
    simp [rowsTarget, rowsOpenStr, rowsCloseStr, xmlDeclStr, List.length_append]
    omega
  rw [hlen]
  rfl

theorem xmlSearch_exact (pad1 b pad2 : List Char)
    (hdecl : ∀ i, i < pad1.length →
      declMatchLen true ((pad1 ++ (rowsTarget b ++ pad2)).drop i) = none)
    (hb : ciOcc rowsCloseStr b = false) :
    xmlSearch rowsTagStr (pad1 ++ (rowsTarget b ++ pad2)) = some (rowsTarget b) := by
  have hdrop : (pad1 ++ (rowsTarget b ++ pad2)).drop pad1.length = rowsTarget b ++ pad2 :=
    List.drop_left _ _
  have hfind : findFromLen (xmlRowsMatchLen rowsTagStr) (pad1 ++ (rowsTarget b ++ pad2)) =
      some (pad1.length, (rowsTarget b).length) := by
    apply findFromLen_eq
    · intro i hi
      unfold xmlRowsMatchLen
      rw [hdecl i hi]
    · rw [hdrop]
      exact xmlMatch_target b pad2 hb
    · simp only [List.length_append]
      omega
  unfold xmlSearch
  rw [hfind]
  show some (((pad1 ++ (rowsTarget b ++ pad2)).drop pad1.length).take (rowsTarget b).length) =
    some (rowsTarget b)
  rw [hdrop, List.take_left]

theorem utf8DecodeIgnoreAux_ascii (cs : List Char) : ∀ fuel, cs.length ≤ fuel →
    (∀ c ∈ cs, c.toNat < 128) →
    utf8DecodeIgnoreAux fuel (cs.map Char.toNat) = cs := by
  induction cs with
  | nil => intro fuel _ _; cases fuel <;> rfl
  | cons c t ih =>
    intro fuel hfuel hascii
    cases fuel with
    | zero => simp at hfuel
    | succ fuel =>
      have hc : c.toNat < 128 := hascii c (List.mem_cons_self c t)
      simp only [List.map_cons, utf8DecodeIgnoreAux]
      rw [if_pos hc, Char.ofNat_toNat,
        ih fuel (by simpa using hfuel) (fun x hx => hascii x (List.mem_cons_of_mem c hx))]

theorem utf8DecodeIgnore_ascii (cs : List Char) (hascii : ∀ c ∈ cs, c.toNat < 128) :
    utf8DecodeIgnore (cs.map Char.toNat) = cs := by
  unfold utf8DecodeIgnore
  rw [List.length_map]
  exact utf8DecodeIgnoreAux_ascii cs cs.length le_rfl hascii

/-- Fuel bounds for `utf8DecodeIgnoreAux` are interchangeable once they
cover the input length (each step consumes at least one byte and spends
exactly one unit of fuel). -/
theorem utf8IgnoreAux_irrel : ∀ (n : Nat) (s : List Nat) (f1 f2 : Nat),
    s.length ≤ n → s.length ≤ f1 → s.length ≤ f2 →
    utf8DecodeIgnoreAux f1 s = utf8DecodeIgnoreAux f2 s := by
  intro n
  induction n with
  | zero =>
    intro s f1 f2 hn _ _
    have hs : s = [] := by simpa [List.length_eq_zero] using Nat.le_zero.mp hn
    subst hs
    cases f1 <;> cases f2 <;> rfl
  | succ n ih =>
    intro s f1 f2 hn h1 h2
    cases s with
    | nil => cases f1 <;> cases f2 <;> rfl
    | cons b t =>
      cases f1 with
      | zero => simp at h1
      | succ f1 =>
        cases f2 with
        | zero => simp at h2
        | succ f2 =>
          rcases t with _ | ⟨c1, _ | ⟨c2, _ | ⟨c3, t3⟩⟩⟩ <;>
            · simp only [List.length_cons, List.length_nil] at hn h1 h2
              simp only [utf8DecodeIgnoreAux] <;> (try split_ifs) <;> first | rfl | exact ih _ _ _ (by (try simp only [List.length_cons, List.length_nil]); omega) (by (try simp only [List.length_cons, List.length_nil]); omega) (by (try simp only [List.length_cons, List.length_nil]); omega) | exact congrArg _ (ih _ _ _ (by (try simp only [List.length_cons, List.length_nil]); omega) (by (try simp only [List.length_cons, List.length_nil]); omega) (by (try simp only [List.length_cons, List.length_nil]); omega))

/-- An all-ASCII byte prefix decodes to its own characters, one per
byte, and decoding continues independently on the remainder. -/
theorem utf8IgnoreAux_ascii_chain : ∀ (mid suf : List Nat) (fuel : Nat),
    (∀ b ∈ mid, b < 128) →
    utf8DecodeIgnoreAux (mid.length + fuel) (mid ++ suf) =
      mid.map (fun b => Char.ofNat b) ++ utf8DecodeIgnoreAux fuel suf := by
  intro mid
  induction mid with
  | nil =>
    intro suf fuel _
    simp only [List.length_nil, Nat.zero_add, List.nil_append, List.map_nil]
  | cons m mid' ih =>
    intro suf fuel h
    have hm : m < 128 := h m (List.mem_cons_self m mid')
    have harith : (m :: mid').length + fuel = (mid'.length + fuel) + 1 := by
      simp only [List.length_cons]
      omega
    rw [harith, List.cons_append]
    simp only [utf8DecodeIgnoreAux]
    rw [if_pos hm, ih suf fuel (fun x hx => h x (List.mem_cons_of_mem m hx))]
    rfl

/-- Decoding the empty byte string yields no characters, at any fuel. -/
theorem utf8IgnoreAux_nil (f : Nat) : utf8DecodeIgnoreAux f [] = [] := by
  cases f <;> rfl

/-- Tolerant decoding decomposes at a boundary whose right side starts
with an ASCII byte: no multi-byte sequence can straddle it, because a
sequence started on the left would need a continuation byte
(`0x80`-`0xBF`) where the right side has an ASCII byte, so it is
discarded on the left exactly as when the left side ends the input. -/
theorem utf8IgnoreAux_split (rest : List Nat)
    (hr : ∀ b, rest.head? = some b → b < 128) :
    ∀ (fuel : Nat) (pre : List Nat), pre.length ≤ fuel →
    utf8DecodeIgnoreAux (fuel + rest.length) (pre ++ rest) =
      utf8DecodeIgnoreAux fuel pre ++ utf8DecodeIgnoreAux rest.length rest := by
  intro fuel
  induction fuel with
  | zero =>
    intro pre h0
    have hpre : pre = [] := by simpa [List.length_eq_zero] using Nat.le_zero.mp h0
    subst hpre
    rw [List.nil_append, Nat.zero_add]
    rfl
  | succ f ih =>
    intro pre hlen
    cases pre with
    | nil =>
      rw [List.nil_append]
      show utf8DecodeIgnoreAux (f + 1 + rest.length) rest =
        [] ++ utf8DecodeIgnoreAux rest.length rest
      rw [List.nil_append]
      exact utf8IgnoreAux_irrel rest.length rest _ _ le_rfl (by omega) le_rfl
    | cons b pre' =>
      have hlen' : pre'.length ≤ f := by
        simp only [List.length_cons] at hlen
        omega
      have harith : f + 1 + rest.length = (f + rest.length) + 1 := by omega
      rw [List.cons_append, harith]
      simp only [utf8DecodeIgnoreAux]
      by_cases hb1 : b < 0x80
      · simp only [if_pos hb1, List.cons_append]
        rw [ih pre' hlen']
      · simp only [if_neg hb1]
        by_cases hb2 : 0xC2 ≤ b ∧ b ≤ 0xDF
        · simp only [if_pos hb2]
          rcases pre' with _ | ⟨d1, pre''⟩
          · rcases hre : rest with _ | ⟨r1, rest'⟩
            · rfl
            · subst hre
              have hr1 : r1 < 128 := hr r1 rfl
              simp only [List.nil_append]
              try dsimp only
              rw [if_neg (fun hc => absurd hc.1 (by omega))]
              show utf8DecodeIgnoreAux (f + (r1 :: rest').length) (r1 :: rest') =
                [] ++ utf8DecodeIgnoreAux (r1 :: rest').length (r1 :: rest')
              rw [List.nil_append]
              exact utf8IgnoreAux_irrel (r1 :: rest').length _ _ _ le_rfl (by omega) le_rfl
          · simp only [List.cons_append]
            by_cases hc : 0x80 ≤ d1 ∧ d1 ≤ 0xBF
            · simp only [if_pos hc, List.cons_append]
              rw [ih pre'' (by simp only [List.length_cons] at hlen; omega)]
            · simp only [if_neg hc]
              have h2 := ih (d1 :: pre'') hlen'
              rw [List.cons_append] at h2
              rw [h2]
        · simp only [if_neg hb2]
          by_cases hb3 : 0xE0 ≤ b ∧ b ≤ 0xEF
          · simp only [if_pos hb3]
            rcases pre' with _ | ⟨d1, _ | ⟨d2, pre''⟩⟩
            · rcases hre : rest with _ | ⟨r1, _ | ⟨r2, rest'⟩⟩
              · subst hre
                simp only [List.nil_append, utf8IgnoreAux_nil, List.length_nil]
              · subst hre
                simp only [List.nil_append]
                try dsimp only
                rw [utf8IgnoreAux_nil, List.nil_append]
                exact utf8IgnoreAux_irrel [r1].length _ _ _ le_rfl (by
                  simp only [List.length_cons, List.length_nil]; omega) le_rfl
              · subst hre
                have hr1 : r1 < 128 := hr r1 rfl
                simp only [List.nil_append]
                try dsimp only
                rw [if_neg (fun hc => absurd hc.1.1 (by omega))]
                rw [utf8IgnoreAux_nil, List.nil_append]
                exact utf8IgnoreAux_irrel (r1 :: r2 :: rest').length _ _ _ le_rfl (by omega) le_rfl
            · rcases hre : rest with _ | ⟨r1, rest'⟩
              · subst hre
                have h2 := ih [d1] (by simp only [List.length_cons] at hlen; omega)
                simp only [List.cons_append, List.nil_append] at h2 ⊢
                try dsimp only
                exact h2
              · subst hre
                have hr1 : r1 < 128 := hr r1 rfl
                have h2 := ih [d1] (by simp only [List.length_cons] at hlen; omega)
                simp only [List.cons_append, List.nil_append] at h2 ⊢
                try dsimp only
                rw [if_neg (fun hc => absurd hc.2.1.1 (by omega))]
                exact h2
            · simp only [List.cons_append]
              by_cases hc : (0x80 ≤ d1 ∧ d1 ≤ 0xBF) ∧ (0x80 ≤ d2 ∧ d2 ≤ 0xBF) ∧
                  (b = 0xE0 → 0xA0 ≤ d1) ∧ (b = 0xED → d1 ≤ 0x9F)
              · simp only [if_pos hc, List.cons_append]
                rw [ih pre'' (by simp only [List.length_cons] at hlen; omega)]
              · simp only [if_neg hc]
                have h2 := ih (d1 :: d2 :: pre'') hlen'
                rw [List.cons_append, List.cons_append] at h2
                rw [h2]
          · simp only [if_neg hb3]
            by_cases hb4 : 0xF0 ≤ b ∧ b ≤ 0xF4
            · simp only [if_pos hb4]
              rcases pre' with _ | ⟨d1, _ | ⟨d2, _ | ⟨d3, pre''⟩⟩⟩
              · rcases hre : rest with _ | ⟨r1, _ | ⟨r2, _ | ⟨r3, rest'⟩⟩⟩
                · subst hre
                  simp only [List.nil_append, utf8IgnoreAux_nil, List.length_nil]
                · subst hre
                  simp only [List.nil_append]
                  try dsimp only
                  rw [utf8IgnoreAux_nil, List.nil_append]
                  exact utf8IgnoreAux_irrel [r1].length _ _ _ le_rfl (by
                    simp only [List.length_cons, List.length_nil]; omega) le_rfl
                · subst hre
                  simp only [List.nil_append]
                  try dsimp only
                  rw [utf8IgnoreAux_nil, List.nil_append]
                  exact utf8IgnoreAux_irrel [r1, r2].length _ _ _ le_rfl (by
                    simp only [List.length_cons, List.length_nil]; omega) le_rfl
                · subst hre
                  have hr1 : r1 < 128 := hr r1 rfl
                  simp only [List.nil_append]
                  try dsimp only
                  rw [if_neg (fun hc => absurd hc.1.1 (by omega))]
                  rw [utf8IgnoreAux_nil, List.nil_append]
                  exact utf8IgnoreAux_irrel (r1 :: r2 :: r3 :: rest').length _ _ _ le_rfl
                    (by omega) le_rfl
              · rcases hre : rest with _ | ⟨r1, _ | ⟨r2, rest'⟩⟩
                · subst hre
                  have h2 := ih [d1] (by simp only [List.length_cons] at hlen; omega)
                  simp only [List.cons_append, List.nil_append] at h2 ⊢
                  try dsimp only
                  exact h2
                · subst hre
                  have h2 := ih [d1] (by simp only [List.length_cons] at hlen; omega)
                  simp only [List.cons_append, List.nil_append] at h2 ⊢
                  try dsimp only
                  exact h2
                · subst hre
                  have hr1 : r1 < 128 := hr r1 rfl
                  have h2 := ih [d1] (by simp only [List.length_cons] at hlen; omega)
                  simp only [List.cons_append, List.nil_append] at h2 ⊢
                  try dsimp only
                  rw [if_neg (fun hc => absurd hc.2.1.1 (by omega))]
                  exact h2
              · rcases hre : rest with _ | ⟨r1, rest'⟩
                · subst hre
                  have h2 := ih [d1, d2] (by simp only [List.length_cons] at hlen; omega)
                  simp only [List.cons_append, List.nil_append] at h2 ⊢
                  try dsimp only
                  exact h2
                · subst hre
                  have hr1 : r1 < 128 := hr r1 rfl
                  have h2 := ih [d1, d2] (by simp only [List.length_cons] at hlen; omega)
                  simp only [List.cons_append, List.nil_append] at h2 ⊢
                  try dsimp only
                  rw [if_neg (fun hc => absurd hc.2.2.1.1 (by omega))]
                  exact h2
              · simp only [List.cons_append]
                by_cases hc : (0x80 ≤ d1 ∧ d1 ≤ 0xBF) ∧ (0x80 ≤ d2 ∧ d2 ≤ 0xBF) ∧
                    (0x80 ≤ d3 ∧ d3 ≤ 0xBF) ∧ (b = 0xF0 → 0x90 ≤ d1) ∧ (b = 0xF4 → d1 ≤ 0x8F)
                · simp only [if_pos hc, List.cons_append]
                  rw [ih pre'' (by simp only [List.length_cons] at hlen; omega)]
                · simp only [if_neg hc]
                  have h2 := ih (d1 :: d2 :: d3 :: pre'') hlen'
                  rw [List.cons_append, List.cons_append, List.cons_append] at h2
                  rw [h2]
            · simp only [if_neg hb4]
              exact ih pre' hlen'

/-- `bytes.decode("utf-8", errors="ignore")` on an ASCII payload
embedded between arbitrary binary pads: the decoded text is the decoded
left pad, then the payload verbatim, then the decoded right pad. -/
theorem utf8DecodeIgnore_embed (pad1 mid pad2 : List Nat)
    (hmid : ∀ b ∈ mid, b < 128) (hne : mid ≠ []) :
    utf8DecodeIgnore (pad1 ++ (mid ++ pad2)) =
      utf8DecodeIgnore pad1 ++ (mid.map (fun b => Char.ofNat b) ++ utf8DecodeIgnore pad2) := by
  unfold utf8DecodeIgnore
  have hhead : ∀ b, (mid ++ pad2).head? = some b → b < 128 := by
    obtain ⟨m, ms, hm⟩ := List.exists_cons_of_ne_nil hne
    subst hm
    intro b hb
    simp only [List.cons_append, List.head?_cons, Option.some.injEq] at hb
    subst hb
    exact hmid m (List.mem_cons_self m ms)
  rw [show (pad1 ++ (mid ++ pad2)).length = pad1.length + (mid ++ pad2).length from by
    simp [List.length_append]]
  rw [utf8IgnoreAux_split (mid ++ pad2) hhead pad1.length pad1 le_rfl]
  congr 1
  rw [show (mid ++ pad2).length = mid.length + pad2.length from by simp [List.length_append]]
  exact utf8IgnoreAux_ascii_chain mid pad2 pad2.length hmid

/-- C7 claim, amended: every failure mode of the tool-based primary
strategy (tool absent/timeout/subprocess error, non-zero exit, empty or
non-UTF-8 output, output lacking an XML declaration) yields `None`, in
which case the pattern-based strategy is attempted next; neither
strategy's failure raises — both strategies failing gives the overall
`False` result, a fallback success gives the recovered XML with the
Regex method; and when the container bytes are the ASCII payload
`<?xml version="1.0"?><ROWS>b</ROWS>` embedded between arbitrary
binary pads, the fallback tolerantly decodes the container
(`errors='ignore'`) and recovers exactly that payload, provided the
decoded left pad gives no earlier match of the XML-declaration pattern
and `b` contains no case-insensitive `</ROWS>`.  (The original claim's
fully "arbitrary binary padding" fails when the padding itself decodes
to an XML declaration — see the counterexample — so the amendment adds
exactly these two non-interference conditions, stated on the decoded
text the regex actually searches.) -/
theorem C7_extraction_fallback :
    (try_openssl_cms none = none) ∧
    (∀ r : ToolRun, r.returncode ≠ 0 → try_openssl_cms (some r) = none) ∧
    (∀ r : ToolRun, r.stdout = [] → try_openssl_cms (some r) = none) ∧
    (∀ r : ToolRun, utf8DecodeStrict r.stdout = none → try_openssl_cms (some r) = none) ∧
    (∀ (r : ToolRun) (d : List Char), utf8DecodeStrict r.stdout = some d →
      containsSeq "<?xml".toList d = false → try_openssl_cms (some r) = none) ∧
    (∀ (run? : Option ToolRun) (bytes : List Nat),
      try_openssl_cms run? = none → extract_xml_from_binary bytes = none →
      extract_p7b_to_xml true run? bytes = (false, none)) ∧
    (∀ (run? : Option ToolRun) (bytes : List Nat) (x : List Char),
      try_openssl_cms run? = none → extract_xml_from_binary bytes = some x →
      extract_p7b_to_xml true run? bytes = (true, some (x, .regex))) ∧
    (∀ (run? : Option ToolRun) (pad1 pad2 : List Nat) (b : List Char),
      try_openssl_cms run? = none →
      (∀ i, i < (utf8DecodeIgnore pad1).length →
        declMatchLen true ((utf8DecodeIgnore pad1 ++
          (rowsTarget b ++ utf8DecodeIgnore pad2)).drop i) = none) →
      ciOcc rowsCloseStr b = false →
      (∀ c ∈ rowsTarget b, c.toNat < 128) →
      extract_p7b_to_xml true run?
          (pad1 ++ ((rowsTarget b).map Char.toNat ++ pad2)) =
        (true, some (rowsTarget b, .regex))) := by
  have hfall : ∀ (run? : Option ToolRun) (bytes : List Nat) (x : List Char),
      try_openssl_cms run? = none → extract_xml_from_binary bytes = some x →
      extract_p7b_to_xml true run? bytes = (true, some (x, .regex)) := by
    intro run? bytes x h1 h2
    unfold extract_p7b_to_xml
    rw [h1, h2]
    rfl
  refine ⟨rfl, ?_, ?_, ?_, ?_, ?_, hfall, ?_⟩
  · intro r h
    unfold try_openssl_cms
    dsimp only
    rw [if_neg (fun hc => h hc.1)]
  · intro r h
    unfold try_openssl_cms
    dsimp only
    rw [if_neg (fun hc => hc.2 h)]
  · intro r h
    unfold try_openssl_cms
    dsimp only
    by_cases hc : r.returncode = 0 ∧ r.stdout ≠ []
    · rw [if_pos hc, h]
    · rw [if_neg hc]
  · intro r d h hns
    unfold try_openssl_cms
    dsimp only
    by_cases hc : r.returncode = 0 ∧ r.stdout ≠ []
    · rw [if_pos hc, h]
      dsimp only
      rw [hns]
      rfl
    · rw [if_neg hc]
  · intro run? bytes h1 h2
    unfold extract_p7b_to_xml
    rw [h1, h2]
    rfl
  · intro run? pad1 pad2 b hrun hdecl hb hba
    have hmid : ∀ x ∈ (rowsTarget b).map Char.toNat, x < 128 := by
      intro x hx
      obtain ⟨c, hc, rfl⟩ := List.mem_map.mp hx
      exact hba c hc
    have hmidne : (rowsTarget b).map Char.toNat ≠ [] := by
      simp only [ne_eq, List.map_eq_nil_iff]
      intro he
      have hle := congrArg List.length he
      simp [rowsTarget, xmlDeclStr, rowsOpenStr, rowsCloseStr] at hle
    have hemb := utf8DecodeIgnore_embed pad1 ((rowsTarget b).map Char.toNat) pad2 hmid hmidne
    have hround : ((rowsTarget b).map Char.toNat).map (fun x => Char.ofNat x) = rowsTarget b := by
      have hcomp : ((fun x => Char.ofNat x) ∘ Char.toNat) = fun c : Char => c := by
        funext c
        simp [Function.comp, Char.ofNat_toNat]
      rw [List.map_map, hcomp, List.map_id']
    rw [hround] at hemb
    have hext : extract_xml_from_binary (pad1 ++ ((rowsTarget b).map Char.toNat ++ pad2)) =
        some (rowsTarget b) := by
      unfold extract_xml_from_binary
      rw [hemb,
        xmlSearch_exact (utf8DecodeIgnore pad1) b (utf8DecodeIgnore pad2) hdecl hb]
    exact hfall run? _ _ hrun hext

/-- Witness for `C7_extraction_fallback` at concrete inputs: tool
absent (`none`), and the payload `<?xml version="1.0"?><ROWS>x</ROWS>`
embedded between genuinely binary pads — a DER-flavored prefix
`30 82 01 0A DE AD` (whose tolerant decode keeps `0`, two control
characters and the two-byte character `DE AD`) and the suffix
`FF 00 C3` (an invalid byte, `NUL`, and a truncated lead byte). -/
theorem C7_extraction_fallback_witness :
    ((∀ i, i < (utf8DecodeIgnore [48, 130, 1, 10, 222, 173]).length →
        declMatchLen true ((utf8DecodeIgnore [48, 130, 1, 10, 222, 173] ++
          (rowsTarget "x".toList ++ utf8DecodeIgnore [255, 0, 195])).drop i) = none) ∧
      ciOcc rowsCloseStr "x".toList = false ∧
      (∀ c ∈ rowsTarget "x".toList, c.toNat < 128)) ∧
    extract_p7b_to_xml true none
        ([48, 130, 1, 10, 222, 173] ++ ((rowsTarget "x".toList).map Char.toNat ++ [255, 0, 195])) =
      (true, some (rowsTarget "x".toList, .regex)) := by
  refine ⟨⟨by decide, by decide, by decide⟩, ?_⟩
  exact C7_extraction_fallback.2.2.2.2.2.2.2 none [48, 130, 1, 10, 222, 173] [255, 0, 195]
    "x".toList rfl (by decide) (by decide) (by decide)

/-- C7 counterexample for the original "arbitrary binary padding"
claim: when the padding before the payload itself contains an XML
declaration (`<?xml a?>J`), the leftmost-match regex recovers a longer
string than the embedded
`<?xml version="1.0"?><ROWS>x</ROWS>` substring. -/
theorem C7_arbitrary_padding_counterexample :
    extract_xml_from_binary
        (("<?xml a?>J".toList ++ rowsTarget "x".toList).map Char.toNat) =
      some ("<?xml a?>J".toList ++ rowsTarget "x".toList) ∧
    ("<?xml a?>J".toList ++ rowsTarget "x".toList) ≠ rowsTarget "x".toList := by
  refine ⟨by decide, by decide⟩

/-! ## MTOM attachment extraction (`opg.save_mtom_attachments`, lines 163-194)

    parts = resp.content.split(("--" + boundary).encode())
    for part in parts:
        part = part.strip()
        if not part or part == b'--': continue
        header_end = part.find(b"\r\n\r\n")
        if header_end < 0: header_end = part.find(b"\n\n")
        if header_end < 0: continue
        header = part[:header_end].decode("utf-8", errors="ignore")
        body = part[header_end + (4 if ...crlf... else 2):]
        if "application/octet-stream" in header.lower() or "application/zip" in ...:
            name from re.search(r'name="?([^";]+)"?', header, re.I), default
            attachment_<idx>.zip, forced ".zip" suffix
-/

/-- Structural worker for `splitSeq` (Python `bytes.split` for a
nonempty separator); the fuel bounds the input length. -/
def splitSeqAux [DecidableEq α] (p : List α) : Nat → List α → List (List α)
  | 0, s => [s]
  | fuel + 1, s =>
    match firstOccIdx p s with
    | none => [s]
    | some i => s.take i :: splitSeqAux p fuel (s.drop (i + p.length))

def splitSeq [DecidableEq α] (p s : List α) : List (List α) :=
  if p = [] then [s] else splitSeqAux p s.length s

theorem firstOccIdx_cons_lt {α : Type} [DecidableEq α] {p : List α} {s : List α} {i : Nat}
    (hp : p ≠ []) (h : firstOccIdx p s = some i) : i + p.length ≤ s.length := by
  induction s generalizing i with
  | nil => simp [firstOccIdx] at h
  | cons c t ih =>
    by_cases hpre : p.isPrefixOf (c :: t)
    · rw [firstOccIdx, if_pos hpre] at h
      cases h
      have := List.IsPrefix.length_le (List.isPrefixOf_iff_prefix.mp hpre)
      simpa using this
    · rw [firstOccIdx, if_neg hpre] at h
      match hmap : firstOccIdx p t with
      | none => rw [hmap] at h; simp at h
      | some j =>
        rw [hmap] at h
        simp at h
        have := ih hmap
        simp only [List.length_cons]
        omega

theorem splitSeqAux_irrel {α : Type} [DecidableEq α] (p : List α) (hp : p ≠ []) :
    ∀ (n : Nat) (s : List α) (f1 f2 : Nat), s.length ≤ n → s.length ≤ f1 →
      s.length ≤ f2 → splitSeqAux p f1 s = splitSeqAux p f2 s := by
  intro n
  induction n with
  | zero =>
    intro s f1 f2 hn _ _
    have hs : s = [] := by simpa [List.length_eq_zero] using Nat.le_zero.mp hn
    subst hs
    have hocc : firstOccIdx p ([] : List α) = none := rfl
    cases f1 <;> cases f2 <;> first | rfl | simp [splitSeqAux, hocc]
  | succ n ih =>
    intro s f1 f2 hn h1 h2
    cases s with
    | nil =>
      have hocc : firstOccIdx p ([] : List α) = none := rfl
      cases f1 <;> cases f2 <;> first | rfl | simp [splitSeqAux, hocc]
    | cons c t =>
      have hlen : (c :: t).length ≥ 1 := by simp
      cases f1 with
      | zero => omega
      | succ f1 =>
        cases f2 with
        | zero => omega
        | succ f2 =>
          simp only [splitSeqAux]
          rcases hocc : firstOccIdx p (c :: t) with _ | i
          · rfl
          · dsimp only
            have hb := firstOccIdx_cons_lt hp hocc
            have hp1 : 1 ≤ p.length := by
              cases p with
              | nil => exact absurd rfl hp
              | cons _ _ => simp
            have hd : ((c :: t).drop (i + p.length)).length ≤ n := by
              rw [List.length_drop]
              simp only [List.length_cons] at hb hn ⊢
              omega
            rw [ih ((c :: t).drop (i + p.length)) f1 f2 hd (by rw [List.length_drop]; omega)
              (by rw [List.length_drop]; omega)]

theorem splitSeq_eq {α : Type} [DecidableEq α] (p s : List α) (hp : p ≠ []) :
    splitSeq p s = match firstOccIdx p s with
      | none => [s]
      | some i => s.take i :: splitSeq p (s.drop (i + p.length)) := by
  simp only [splitSeq, if_neg hp]
  cases s with
  | nil =>
    have hocc : firstOccIdx p ([] : List α) = none := rfl
    simp [splitSeqAux, hocc]
  | cons c t =>
    simp only [List.length_cons, splitSeqAux]
    rcases hocc : firstOccIdx p (c :: t) with _ | i
    · rfl
    · dsimp only
      have hb := firstOccIdx_cons_lt hp hocc
      have hp1 : 1 ≤ p.length := by
        cases p with
        | nil => exact absurd rfl hp
        | cons _ _ => simp
      rw [splitSeqAux_irrel p hp ((c :: t).drop (i + p.length)).length _ _ _ le_rfl
        (by rw [List.length_drop]; simp only [List.length_cons] at hb ⊢; omega) le_rfl]

theorem isPrefixOf_of_prefix_trunc {α : Type} [DecidableEq α] {p x t : List α}
    (h : p <+: (x ++ t)) (hlen : p.length ≤ x.length) : p <+: x := by
  rw [List.prefix_iff_eq_take] at h ⊢
  rw [h, List.take_append_of_le_length hlen]
  rw [List.length_take, Nat.min_eq_left hlen]

theorem containsSeq_of_pref {α : Type} [DecidableEq α] {p x : List α}
    (hp : p ≠ []) (h : p <+: x) : containsSeq p x = true := by
  cases x with
  | nil =>
    have := List.IsPrefix.length_le h
    cases p with
    | nil => exact absurd rfl hp
    | cons _ _ => simp at this
  | cons c t =>
    unfold containsSeq firstOccIdx
    rw [if_pos (List.isPrefixOf_iff_prefix.mpr h)]
    rfl

theorem firstOccIdx_none_iff {α : Type} [DecidableEq α] {p : List α} (hp : p ≠ []) :
    ∀ s : List α, firstOccIdx p s = none ↔ ∀ i, ¬ p <+: s.drop i := by
  intro s
  induction s with
  | nil =>
    simp only [firstOccIdx_nil, List.drop_nil, true_iff]
    intro i h
    have := List.IsPrefix.length_le h
    cases p with
    | nil => exact absurd rfl hp
    | cons _ _ => simp at this
  | cons c t ih =>
    constructor
    · intro h i
      rw [firstOccIdx] at h
      by_cases hpre : p.isPrefixOf (c :: t)
      · rw [if_pos hpre] at h; simp at h
      · rw [if_neg hpre] at h
        cases i with
        | zero =>
          simpa [List.isPrefixOf_iff_prefix] using hpre
        | succ i =>
          have hnone : firstOccIdx p t = none := by
            match hmap : firstOccIdx p t with
            | none => rfl
            | some j => rw [hmap] at h; simp at h
          exact (ih.mp hnone) i
    · intro h
      rw [firstOccIdx]
      rw [if_neg (by
        intro hpre
        exact (h 0) (by simpa [List.isPrefixOf_iff_prefix] using hpre))]
      rw [ih.mpr (fun i => by simpa using h (i + 1))]
      rfl

theorem containsSeq_false_iff {α : Type} [DecidableEq α] {p : List α} (hp : p ≠ [])
    (s : List α) : containsSeq p s = false ↔ ∀ i, ¬ p <+: s.drop i := by
  unfold containsSeq
  rw [← firstOccIdx_none_iff hp]
  cases firstOccIdx p s <;> simp

/-- Decomposition of an occurrence inside `x ++ t` that begins in `x`
but overflows it: the pattern splits into a suffix of `x` and a prefix
of `t`, forcing a self-overlap of the pattern when `t` begins with the
pattern itself. -/
theorem prefix_straddle {α : Type} [DecidableEq α] {p x t : List α}
    (h : p <+: (x ++ t)) (hlt : x.length < p.length) :
    x = p.take x.length ∧ p.drop x.length <+: t := by
  have hx : x <+: p := by
    rw [List.prefix_iff_eq_take] at h ⊢
    rw [h]
    rw [List.take_take, min_eq_left (le_of_lt hlt), List.take_append_of_le_length le_rfl]
    simp
  constructor
  · rw [List.prefix_iff_eq_take] at hx
    exact hx
  · obtain ⟨s₁, hs₁⟩ := h
    obtain ⟨s₂, hs₂⟩ := hx
    refine ⟨s₁, ?_⟩
    have : x ++ (p.drop x.length ++ s₁) = x ++ t := by
      rw [← List.append_assoc]
      rw [show x ++ p.drop x.length = p from by
        conv_rhs => rw [← hs₂]
        rw [← List.take_append_drop x.length p, ← hs₂]
        simp [List.take_left]]
      exact hs₁
    exact List.append_cancel_left this

/-- Leftmost occurrence of a nonempty pattern in `x ++ (p ++ r)` when
the pattern neither occurs inside `x` nor straddles the border (the
straddle condition is phrased through pattern self-overlap). -/
theorem firstOccIdx_append_at {α : Type} [DecidableEq α] (p x r : List α) (hp : p ≠ [])
    (hx : containsSeq p x = false)
    (hstr : ∀ m, 0 < m → m < p.length → p.drop m = p.take (p.length - m) →
      x.drop (x.length - m) ≠ p.take m) :
    firstOccIdx p (x ++ (p ++ r)) = some x.length := by
  revert hx hstr
  induction x with
  | nil =>
    intro hx hstr
    cases p with
    | nil => exact absurd rfl hp
    | cons a ps =>
      rw [List.nil_append, List.cons_append, firstOccIdx,
        if_pos (List.isPrefixOf_iff_prefix.mpr
          (by rw [← List.cons_append]; exact List.prefix_append _ _))]
      rfl
  | cons c xs ih =>
    intro hx hstr
    have hx2 : containsSeq p xs = false := by
      rw [containsSeq_false_iff hp] at hx ⊢
      intro i
      simpa using hx (i + 1)
    have hstr2 : ∀ m, 0 < m → m < p.length → p.drop m = p.take (p.length - m) →
        xs.drop (xs.length - m) ≠ p.take m := by
      intro m hm0 hmlt hover heq
      by_cases hc : m ≤ xs.length
      · refine hstr m hm0 hmlt hover ?_
        have hidx : (c :: xs).length - m = (xs.length - m) + 1 := by
          simp only [List.length_cons]
          omega
        rw [hidx, List.drop_succ_cons]
        exact heq
      · have hl1 : xs.length - m = 0 := by omega
        rw [hl1, List.drop_zero] at heq
        have hlen2 : xs.length = (p.take m).length := by rw [heq]
        rw [List.length_take] at hlen2
        omega
    have hnot : ¬ p.isPrefixOf (c :: (xs ++ (p ++ r))) = true := by
      intro hpre
      rw [List.isPrefixOf_iff_prefix] at hpre
      rw [← List.cons_append] at hpre
      by_cases hle : p.length ≤ (c :: xs).length
      · have hpx := isPrefixOf_of_prefix_trunc hpre hle
        rw [containsSeq_of_pref hp hpx] at hx
        exact absurd hx (by simp)
      · push_neg at hle
        obtain ⟨heq, hdrop⟩ := prefix_straddle hpre hle
        have hm1 : 0 < (c :: xs).length := by simp
        have hdp : p.drop (c :: xs).length <+: p :=
          isPrefixOf_of_prefix_trunc hdrop (by rw [List.length_drop]; omega)
        have hover : p.drop (c :: xs).length = p.take (p.length - (c :: xs).length) := by
          rw [List.prefix_iff_eq_take] at hdp
          rw [hdp, List.length_drop]
        refine hstr (c :: xs).length hm1 hle hover ?_
        rw [Nat.sub_self, List.drop_zero]
        exact heq
    rw [List.cons_append, firstOccIdx, if_neg hnot]
    have hih : firstOccIdx p (xs ++ (p ++ r)) = some xs.length := ih hx2 hstr2
    rw [hih]
    rfl

/-- Python `bytes.strip` whitespace set (` \t\n\r\x0b\x0c`). -/
def isWsB (b : Nat) : Bool :=
  b == 32 || b == 9 || b == 10 || b == 13 || b == 11 || b == 12

/-- Python `bytes.strip()`: remove ASCII whitespace from both ends. -/
def stripB (l : List Nat) : List Nat :=
  ((l.dropWhile isWsB).reverse.dropWhile isWsB).reverse

/-- Character allowed inside the `[^";]+` group of the `name=`/`boundary=`
attribute regexes. -/
def nonQS (c : Char) : Bool := !(c == '"' || c == ';')

/-- Match of `key"?([^";]+)"?` (case-insensitive key) at the start of `s`,
returning group 1.  The greedy `"?` first consumes a quote; if the
mandatory `[^";]+` then has nothing to take, backtracking retries without
the quote, which also fails because the quote itself is excluded. -/
def attrValAt (key : List Char) (s : List Char) : Option (List Char) :=
  if ciStarts key s then
    match s.drop key.length with
    | '"' :: tl =>
      let v := tl.takeWhile nonQS
      if v.isEmpty then none else some v
    | rest =>
      let v := rest.takeWhile nonQS
      if v.isEmpty then none else some v
  else none

/-- `re.search(key + r'"?([^";]+)"?', s, re.I).group(1)` (leftmost match). -/
def attrValSearch (key : List Char) (s : List Char) : Option (List Char) :=
  findFirstSome (attrValAt key) s

def nameKey : List Char := "name=".toList

def boundaryKey : List Char := "boundary=".toList

/-- `"application/octet-stream" in header.lower() or "application/zip" in
header.lower()` (opg.py line 185). -/
def recognizedHdr (hdr : List Char) : Bool :=
  containsSeq "application/octet-stream".toList (hdr.map Char.toLower) ||
  containsSeq "application/zip".toList (hdr.map Char.toLower)

/-- `if not name.lower().endswith(".zip"): name += ".zip"` (opg.py 190). -/
def zipFix (nm : List Char) : List Char :=
  if ".zip".toList.isSuffixOf (nm.map Char.toLower) then nm
  else nm ++ ".zip".toList

/-- Decimal digits of a natural number (fuel-based for kernel reduction). -/
def natDecAux : Nat → Nat → List Char
  | 0, _ => []
  | fuel + 1, n => if n < 10 then [digitChar n] else natDecAux fuel (n / 10) ++ [digitChar (n % 10)]

def natDec (n : Nat) : List Char := natDecAux (n + 1) n

/-- `f"attachment_{idx}.zip"` (opg.py 189). -/
def defaultName (idx : Nat) : List Char :=
  "attachment_".toList ++ natDec idx ++ ".zip".toList

/-- `header_end = part.find(b"\r\n\r\n"); if header_end < 0: header_end =
part.find(b"\n\n")` (opg.py 180-181); `none` models both finds failing. -/
def headerEndIdx (part : List Nat) : Option Nat :=
  match firstOccIdx [13, 10, 13, 10] part with
  | some i => some i
  | none => firstOccIdx [10, 10] part

/-- One iteration of the part loop of `save_mtom_attachments` (opg.py
176-192): `none` = the part is skipped (`continue` or unrecognized
content type), `some (name, body)` = a file with that name and byte
content is written and appended to `saved`. -/
def processPart (idx : Nat) (raw : List Nat) : Option (List Char × List Nat) :=
  let part := stripB raw
  if part = [] ∨ part = [45, 45] then none
  else
    match headerEndIdx part with
    | none => none
    | some i =>
      let header := utf8DecodeIgnore (part.take i)
      let off := if (part.drop i).take 4 = [13, 10, 13, 10] then 4 else 2
      let body := part.drop (i + off)
      if recognizedHdr header then
        let nm := match attrValSearch nameKey header with
          | some v => v
          | none => defaultName idx
        some (zipFix nm, body)
      else none

/-- The part loop with its `idx` counter (incremented only when a file is
saved). -/
def savePartsAux : Nat → List (List Nat) → List (List Char × List Nat)
  | _, [] => []
  | idx, part :: rest =>
    match processPart idx part with
    | none => savePartsAux idx rest
    | some f => f :: savePartsAux (idx + 1) rest

/-- Outcome of `save_mtom_attachments`: either the non-multipart dump of
`response.xml` (returning `[]`), or the list of saved attachments as
(file name, bytes) pairs. -/
inductive MtomResult where
  | notMultipart
  | saved (files : List (List Char × List Nat))
deriving DecidableEq

/-- `opg.save_mtom_attachments` (lines 163-194) on the response
Content-Type header and body bytes; `Except.error` models the
`RuntimeError` raised when no boundary parameter is found. -/
def save_mtom_attachments (ctype : List Char) (content : List Nat) :
    Except (List Char) MtomResult :=
  if containsSeq "multipart/related".toList (ctype.map Char.toLower) then
    match attrValSearch boundaryKey ctype with
    | none => Except.error "Nem találtam boundary-t a Content-Type fejlécben.".toList
    | some boundary =>
      Except.ok (MtomResult.saved
        (savePartsAux 0 (splitSeq (utf8Encode ('-' :: '-' :: boundary)) content)))
  else Except.ok MtomResult.notMultipart

/-! Spec-side serialization of a multipart/related body: each part sits
between boundary markers `--<bnd>`, opens with CRLF, and separates its
header from its data with a blank line (CRLF CRLF when `crlf`, LF LF
otherwise); the body ends with the `--<bnd>--` terminator. -/

structure MPart where
  crlf : Bool
  hdr : List Char
  data : List Nat
deriving DecidableEq

def hdrBytes (p : MPart) : List Nat := p.hdr.map Char.toNat

def mkMtomPart (p : MPart) : List Nat :=
  [13, 10] ++ hdrBytes p ++ (if p.crlf then [13, 10, 13, 10] else [10, 10]) ++ p.data ++ [13, 10]

def mtomTail (bnd : List Char) : List MPart → List Nat
  | [] => [45, 45]
  | p :: rest => mkMtomPart p ++ (utf8Encode ('-' :: '-' :: bnd) ++ mtomTail bnd rest)

def mkMtomBody (bnd : List Char) (parts : List MPart) : List Nat :=
  utf8Encode ('-' :: '-' :: bnd) ++ mtomTail bnd parts

/-- Hygiene of a boundary string: nonempty, ASCII, no `-` byte. -/
def bndHyg (bnd : List Char) : Bool :=
  !bnd.isEmpty && bnd.all (fun c => decide (c.toNat < 128) && c.toNat != 45)

/-- Hygiene of one serialized part: the header is nonempty ASCII whose
first byte is not whitespace, neither contains a blank-line separator
early nor ends so that one straddles into the separator; the data is
nonempty with a non-whitespace final byte (so `strip()` is the identity
on the assembled part); and the boundary marker does not occur inside
the serialized part. -/
def partHyg (bnd : List Char) (p : MPart) : Bool :=
  !p.hdr.isEmpty && p.hdr.all (fun c => decide (c.toNat < 128)) &&
  !isWsB (hdrBytes p).headI &&
  !p.data.isEmpty && !isWsB (p.data.getLastD 0) &&
  !containsSeq (utf8Encode ('-' :: '-' :: bnd)) (mkMtomPart p) &&
  (if p.crlf then
    !containsSeq [13, 10, 13, 10] (hdrBytes p) &&
    decide ((hdrBytes p).drop ((hdrBytes p).length - 2) ≠ [13, 10])
  else
    !containsSeq [13, 10, 13, 10] (hdrBytes p ++ [10, 10] ++ p.data) &&
    !containsSeq [10, 10] (hdrBytes p) &&
    decide ((hdrBytes p).drop ((hdrBytes p).length - 1) ≠ [10]))

/-- The files `save_mtom_attachments` is expected to save for a list of
serialized parts: exactly the recognized-type parts, each with the
name taken from the header `name=` attribute (default
`attachment_<idx>.zip`), a forced `.zip` suffix, and the raw data
bytes. -/
def expectedFiles : Nat → List MPart → List (List Char × List Nat)
  | _, [] => []
  | idx, p :: rest =>
    if recognizedHdr p.hdr then
      (zipFix (match attrValSearch nameKey p.hdr with
        | some v => v
        | none => defaultName idx), p.data) :: expectedFiles (idx + 1) rest
    else expectedFiles idx rest

theorem firstOccIdx_eq_none {α : Type} [DecidableEq α] {p s : List α}
    (h : containsSeq p s = false) : firstOccIdx p s = none := by
  unfold containsSeq at h
  cases hx : firstOccIdx p s with
  | none => rfl
  | some i => rw [hx] at h; simp at h

theorem containsSeq_short {α : Type} [DecidableEq α] {p s : List α}
    (h : s.length < p.length) : containsSeq p s = false := by
  have hp : p ≠ [] := by
    intro he
    subst he
    simp at h
  rw [containsSeq_false_iff hp]
  intro i hpre
  have h1 := List.IsPrefix.length_le hpre
  have h2 : (s.drop i).length ≤ s.length := by
    rw [List.length_drop]; omega
  omega

/-- A pattern with no nontrivial self-overlap: no proper nonempty suffix
of it is also a prefix of it. -/
def selfOverlapFree {α : Type} (p : List α) : Prop :=
  ∀ m, 0 < m → m < p.length → p.drop m ≠ p.take (p.length - m)

theorem firstOccIdx_append_sof {α : Type} [DecidableEq α] (p x r : List α) (hp : p ≠ [])
    (hsof : selfOverlapFree p) (hx : containsSeq p x = false) :
    firstOccIdx p (x ++ (p ++ r)) = some x.length :=
  firstOccIdx_append_at p x r hp hx
    (fun m hm0 hmlt hover => absurd hover (hsof m hm0 hmlt))

theorem splitSeq_cons_of {α : Type} [DecidableEq α] (p x r : List α) (hp : p ≠ [])
    (hsof : selfOverlapFree p) (hx : containsSeq p x = false) :
    splitSeq p (x ++ (p ++ r)) = x :: splitSeq p r := by
  rw [splitSeq_eq p _ hp, firstOccIdx_append_sof p x r hp hsof hx]
  dsimp only
  congr 1
  · exact List.take_left x (p ++ r)
  · congr 1
    rw [← List.append_assoc,
      show x.length + p.length = (x ++ p).length from (List.length_append x p).symm]
    exact List.drop_left (x ++ p) r

theorem splitSeq_single {α : Type} [DecidableEq α] {p s : List α} (hp : p ≠ [])
    (h : containsSeq p s = false) : splitSeq p s = [s] := by
  rw [splitSeq_eq p s hp, firstOccIdx_eq_none h]

theorem selfOverlapFree_dashdash (B : List Nat) (hB : B ≠ []) (h45 : ∀ b ∈ B, b ≠ 45) :
    selfOverlapFree (45 :: 45 :: B) := by
  intro m hm0 hmlt heq
  cases m with
  | zero => exact absurd hm0 (lt_irrefl 0)
  | succ m' =>
    cases m' with
    | zero =>
      cases B with
      | nil => exact absurd rfl hB
      | cons b bs =>
        have ha : (45 :: 45 :: b :: bs : List Nat).length - 1 = bs.length + 1 + 1 := by
          simp
        rw [ha] at heq
        have hd : (45 :: 45 :: b :: bs : List Nat).drop 1 = 45 :: b :: bs := rfl
        have ht : (45 :: 45 :: b :: bs : List Nat).take (bs.length + 1 + 1) =
            45 :: 45 :: (b :: bs).take bs.length := rfl
        rw [hd, ht] at heq
        injection heq with h1 h2
        injection h2 with h3 h4
        exact h45 b (List.mem_cons_self b bs) h3
    | succ k =>
      have hk : k < B.length := by
        simp only [List.length_cons] at hmlt
        omega
      have hne : B.drop k ≠ [] := by
        intro h0
        have hlen := congrArg List.length h0
        rw [List.length_drop] at hlen
        simp at hlen
        omega
      obtain ⟨b, bs, hbs⟩ := List.exists_cons_of_ne_nil hne
      have hmem : b ∈ B := List.drop_subset k B (hbs ▸ List.mem_cons_self b bs)
      have hj : (45 :: 45 :: B : List Nat).length - (k + 1 + 1) = (B.length - k - 1) + 1 := by
        simp only [List.length_cons]
        omega
      rw [hj] at heq
      have hd : (45 :: 45 :: B : List Nat).drop (k + 1 + 1) = B.drop k := rfl
      have ht : (45 :: 45 :: B : List Nat).take ((B.length - k - 1) + 1) =
          45 :: (45 :: B).take (B.length - k - 1) := rfl
      rw [hd, ht, hbs] at heq
      injection heq with h1 h2
      exact h45 b hmem h1

theorem utf8Encode_ascii (l : List Char) (h : ∀ c ∈ l, c.toNat < 128) :
    utf8Encode l = l.map Char.toNat := by
  induction l with
  | nil => rfl
  | cons c t ih =>
    have hc : c.toNat < 128 := h c (List.mem_cons_self c t)
    simp only [utf8Encode, List.flatMap_cons, List.map_cons]
    rw [show utf8EncodeChar c = [c.toNat] from by
      simp only [utf8EncodeChar]
      rw [if_pos hc]]
    rw [show t.flatMap utf8EncodeChar = utf8Encode t from rfl,
      ih (fun x hx => h x (List.mem_cons_of_mem c hx))]
    rfl

theorem bmark_shape (bnd : List Char) (h : bndHyg bnd = true) :
    utf8Encode ('-' :: '-' :: bnd) = 45 :: 45 :: bnd.map Char.toNat := by
  unfold bndHyg at h
  simp only [Bool.and_eq_true, List.all_eq_true] at h
  obtain ⟨h1, h2⟩ := h
  rw [utf8Encode_ascii]
  · rfl
  · intro c hc
    rcases List.mem_cons.mp hc with hc' | hc'
    · subst hc'; decide
    · rcases List.mem_cons.mp hc' with hc'' | hc''
      · subst hc''; decide
      · have := h2 c hc''
        simp only [Bool.and_eq_true, decide_eq_true_eq] at this
        exact this.1

theorem sof_bndMark (bnd : List Char) (h : bndHyg bnd = true) :
    selfOverlapFree (utf8Encode ('-' :: '-' :: bnd)) := by
  rw [bmark_shape bnd h]
  unfold bndHyg at h
  simp only [Bool.and_eq_true, List.all_eq_true] at h
  obtain ⟨h1, h2⟩ := h
  apply selfOverlapFree_dashdash
  · simp only [ne_eq, List.map_eq_nil_iff]
    intro he
    subst he
    simp at h1
  · intro b hb
    obtain ⟨c, hc, rfl⟩ := List.mem_map.mp hb
    have := h2 c hc
    simp only [Bool.and_eq_true, bne_iff_ne, ne_eq] at this
    exact this.2

theorem dropWhile_append_nil {α : Type} (q : α → Bool) (l₁ l₂ : List α)
    (h : l₁.dropWhile q = []) : (l₁ ++ l₂).dropWhile q = l₂.dropWhile q := by
  induction l₁ with
  | nil => rfl
  | cons a t ih =>
    rw [List.dropWhile_cons] at h
    by_cases hq : q a = true
    · rw [if_pos hq] at h
      rw [List.cons_append, List.dropWhile_cons, if_pos hq]
      exact ih h
    · rw [if_neg hq] at h
      exact absurd h (by simp)

theorem dropWhile_cons_neg {α : Type} (q : α → Bool) (a : α) (l : List α)
    (h : q a = false) : (a :: l).dropWhile q = a :: l := by
  simp [List.dropWhile_cons, h]

/-- `bytes.strip()` on a byte string wrapped in one CRLF on each side is
exactly the unwrap, provided the wrapped string starts and ends with a
non-whitespace byte. -/
theorem stripB_wrap (mid : List Nat) (h0 : mid ≠ [])
    (hh : ∀ b, mid.head? = some b → isWsB b = false)
    (hl : ∀ b, mid.getLast? = some b → isWsB b = false) :
    stripB ([13, 10] ++ mid ++ [13, 10]) = mid := by
  unfold stripB
  rw [List.append_assoc, dropWhile_append_nil isWsB [13, 10] (mid ++ [13, 10]) rfl]
  obtain ⟨a, as, has⟩ := List.exists_cons_of_ne_nil h0
  have hha : isWsB a = false := hh a (by rw [has]; rfl)
  rw [has, List.cons_append, dropWhile_cons_neg isWsB a (as ++ [13, 10]) hha,
    ← List.cons_append, ← has]
  have hrw : (mid ++ [13, 10]).reverse = [10, 13] ++ mid.reverse := by
    rw [List.reverse_append]
    rfl
  rw [hrw, dropWhile_append_nil isWsB [10, 13] mid.reverse rfl]
  cases hrev : mid.reverse with
  | nil =>
    exact absurd (by simpa using congrArg List.reverse hrev) h0
  | cons b bs =>
    have hb : mid.getLast? = some b := by
      rw [← List.head?_reverse, hrev]; rfl
    rw [dropWhile_cons_neg isWsB b bs (hl b hb), ← hrev, List.reverse_reverse]

theorem stripB_mkMtomPart (bnd : List Char) (p : MPart) (h : partHyg bnd p = true) :
    stripB (mkMtomPart p) =
      hdrBytes p ++ ((if p.crlf then [13, 10, 13, 10] else [10, 10]) ++ p.data) := by
  simp only [partHyg, Bool.and_eq_true, Bool.not_eq_true'] at h
  obtain ⟨⟨⟨⟨⟨⟨h1, h2⟩, h3⟩, h4⟩, h5⟩, h6⟩, h7⟩ := h
  have hhdr : hdrBytes p ≠ [] := by
    simp only [hdrBytes, ne_eq, List.map_eq_nil_iff]
    intro he
    rw [he] at h1
    simp at h1
  have hmk : mkMtomPart p =
      [13, 10] ++ (hdrBytes p ++ ((if p.crlf then [13, 10, 13, 10] else [10, 10]) ++ p.data))
        ++ [13, 10] := by
    simp [mkMtomPart, List.append_assoc]
  rw [hmk]
  apply stripB_wrap
  · intro he
    rw [List.append_eq_nil] at he
    exact hhdr he.1
  · intro b hb
    obtain ⟨a, as, has⟩ := List.exists_cons_of_ne_nil hhdr
    rw [has, List.cons_append] at hb
    have hba : a = b := by simpa using hb
    rw [show (hdrBytes p).headI = a from by rw [has]; rfl, hba] at h3
    exact h3
  · intro b hb
    have hdne : p.data ≠ [] := by
      intro he
      rw [he] at h4
      simp at h4
    rw [List.getLast?_append_of_ne_nil _ (by
        intro he
        rw [List.append_eq_nil] at he
        exact hdne he.2)] at hb
    rw [List.getLast?_append_of_ne_nil _ hdne] at hb
    have hbd : p.data.getLastD 0 = b := by
      rw [List.getLastD_eq_getLast?, hb]
      rfl
    rw [hbd] at h5
    exact h5

theorem processPart_mkMtomPart (bnd : List Char) (p : MPart) (idx : Nat)
    (h : partHyg bnd p = true) :
    processPart idx (mkMtomPart p) =
      if recognizedHdr p.hdr then
        some (zipFix (match attrValSearch nameKey p.hdr with
          | some v => v
          | none => defaultName idx), p.data)
      else none := by
  have hstrip := stripB_mkMtomPart bnd p h
  simp only [partHyg, Bool.and_eq_true, Bool.not_eq_true'] at h
  obtain ⟨⟨⟨⟨⟨⟨h1, h2⟩, h3⟩, h4⟩, h5⟩, h6⟩, h7⟩ := h
  have hhdr : hdrBytes p ≠ [] := by
    simp only [hdrBytes, ne_eq, List.map_eq_nil_iff]
    intro he
    rw [he] at h1
    simp at h1
  have hdata : p.data ≠ [] := by
    intro he
    rw [he] at h4
    simp at h4
  have hhl : 0 < (hdrBytes p).length := List.length_pos.mpr hhdr
  have hdl : 0 < p.data.length := List.length_pos.mpr hdata
  have hascii : ∀ c ∈ p.hdr, c.toNat < 128 := by
    rw [List.all_eq_true] at h2
    intro c hc
    have := h2 c hc
    simpa using this
  have hdec : utf8DecodeIgnore (hdrBytes p) = p.hdr := utf8DecodeIgnore_ascii p.hdr hascii
  by_cases hcr : p.crlf = true
  · rw [if_pos hcr] at hstrip h7
    simp only [Bool.and_eq_true, Bool.not_eq_true', decide_eq_true_eq] at h7
    obtain ⟨hA, hB⟩ := h7
    have hocc : firstOccIdx [13, 10, 13, 10] (hdrBytes p ++ ([13, 10, 13, 10] ++ p.data)) =
        some (hdrBytes p).length := by
      apply firstOccIdx_append_at [13, 10, 13, 10] (hdrBytes p) p.data (by simp) hA
      intro m hm0 hm4 hover
      have hm4' : m < 4 := by simpa using hm4
      interval_cases m
      · exact absurd hover (by decide)
      · exact hB
      · exact absurd hover (by decide)
    have hhe : headerEndIdx (hdrBytes p ++ ([13, 10, 13, 10] ++ p.data)) =
        some (hdrBytes p).length := by
      unfold headerEndIdx
      rw [hocc]
    have hne2 : ¬(hdrBytes p ++ ([13, 10, 13, 10] ++ p.data) = [] ∨
        hdrBytes p ++ ([13, 10, 13, 10] ++ p.data) = [45, 45]) := by
      rintro (he | he) <;> have hle := congrArg List.length he <;> simp at hle
      all_goals omega
    simp only [processPart, hstrip, hhe]
    rw [if_neg hne2]
    rw [List.take_left, hdec, List.drop_left]
    have hcond : ([13, 10, 13, 10] ++ p.data).take 4 = [13, 10, 13, 10] := rfl
    rw [if_pos hcond]
    rw [show (hdrBytes p).length + 4 = (hdrBytes p ++ [13, 10, 13, 10]).length from by
      simp [List.length_append]]
    rw [← List.append_assoc, List.drop_left]
  · rw [if_neg hcr] at hstrip h7
    simp only [Bool.and_eq_true, Bool.not_eq_true', decide_eq_true_eq] at h7
    obtain ⟨⟨hA, hB⟩, hC⟩ := h7
    rw [List.append_assoc] at hA
    have hoccC : firstOccIdx [13, 10, 13, 10] (hdrBytes p ++ ([10, 10] ++ p.data)) = none :=
      firstOccIdx_eq_none hA
    have hoccL : firstOccIdx [10, 10] (hdrBytes p ++ ([10, 10] ++ p.data)) =
        some (hdrBytes p).length := by
      apply firstOccIdx_append_at [10, 10] (hdrBytes p) p.data (by simp) hB
      intro m hm0 hm2 hover
      have hm2' : m < 2 := by simpa using hm2
      interval_cases m
      exact hC
    have hhe : headerEndIdx (hdrBytes p ++ ([10, 10] ++ p.data)) =
        some (hdrBytes p).length := by
      unfold headerEndIdx
      rw [hoccC]
      exact hoccL
    have hne2 : ¬(hdrBytes p ++ ([10, 10] ++ p.data) = [] ∨
        hdrBytes p ++ ([10, 10] ++ p.data) = [45, 45]) := by
      rintro (he | he) <;> have hle := congrArg List.length he <;> simp at hle
      all_goals omega
    simp only [processPart, hstrip, hhe]
    rw [if_neg hne2]
    rw [List.take_left, hdec, List.drop_left]
    have hcond : ¬(([10, 10] ++ p.data).take 4 = [13, 10, 13, 10]) := by
      intro heq2
      injection heq2 with he _
      exact absurd he (by decide)
    rw [if_neg hcond]
    rw [show (hdrBytes p).length + 2 = (hdrBytes p ++ [10, 10]).length from by
      simp [List.length_append]]
    rw [← List.append_assoc, List.drop_left]

theorem savePartsAux_mtom (bnd : List Char) :
    ∀ (parts : List MPart) (idx : Nat), parts.all (partHyg bnd) = true →
    savePartsAux idx (parts.map mkMtomPart ++ [[45, 45]]) = expectedFiles idx parts := by
  intro parts
  induction parts with
  | nil =>
    intro idx _
    have hpp : processPart idx [45, 45] = none := rfl
    show savePartsAux idx [[45, 45]] = []
    simp [savePartsAux, hpp]
  | cons q rest ih =>
    intro idx hall
    simp only [List.all_cons, Bool.and_eq_true] at hall
    obtain ⟨hq, hrest⟩ := hall
    simp only [List.map_cons, List.cons_append, savePartsAux, List.append_eq]
    rw [processPart_mkMtomPart bnd q idx hq]
    by_cases hr : recognizedHdr q.hdr = true
    · rw [if_pos hr]
      dsimp only
      rw [ih (idx + 1) hrest]
      rw [show expectedFiles idx (q :: rest) =
        if recognizedHdr q.hdr then
          (zipFix (match attrValSearch nameKey q.hdr with
            | some v => v
            | none => defaultName idx), q.data) :: expectedFiles (idx + 1) rest
        else expectedFiles idx rest from rfl, if_pos hr]
    · rw [if_neg hr]
      dsimp only
      rw [ih idx hrest]
      rw [show expectedFiles idx (q :: rest) =
        if recognizedHdr q.hdr then
          (zipFix (match attrValSearch nameKey q.hdr with
            | some v => v
            | none => defaultName idx), q.data) :: expectedFiles (idx + 1) rest
        else expectedFiles idx rest from rfl, if_neg hr]

theorem splitSeq_mtomTail (bnd : List Char) (hb : bndHyg bnd = true) :
    ∀ parts : List MPart, parts.all (partHyg bnd) = true →
    splitSeq (utf8Encode ('-' :: '-' :: bnd)) (mtomTail bnd parts) =
      parts.map mkMtomPart ++ [[45, 45]] := by
  have hshape := bmark_shape bnd hb
  have hbne : bnd ≠ [] := by
    unfold bndHyg at hb
    simp only [Bool.and_eq_true] at hb
    intro he
    rw [he] at hb
    simp at hb
  have hne : utf8Encode ('-' :: '-' :: bnd) ≠ [] := by
    rw [hshape]
    simp
  have hlen : 2 < (utf8Encode ('-' :: '-' :: bnd)).length := by
    rw [hshape]
    simp only [List.length_cons, List.length_map]
    have : 0 < bnd.length := List.length_pos.mpr hbne
    omega
  have hsof := sof_bndMark bnd hb
  intro parts
  induction parts with
  | nil =>
    intro _
    show splitSeq (utf8Encode ('-' :: '-' :: bnd)) [45, 45] = [[45, 45]]
    apply splitSeq_single hne
    apply containsSeq_short
    simpa using hlen
  | cons q rest ih =>
    intro hall
    simp only [List.all_cons, Bool.and_eq_true] at hall
    obtain ⟨hq, hrest⟩ := hall
    have hnob : containsSeq (utf8Encode ('-' :: '-' :: bnd)) (mkMtomPart q) = false := by
      simp only [partHyg, Bool.and_eq_true, Bool.not_eq_true'] at hq
      exact hq.1.2
    show splitSeq (utf8Encode ('-' :: '-' :: bnd))
      (mkMtomPart q ++ (utf8Encode ('-' :: '-' :: bnd) ++ mtomTail bnd rest)) = _
    rw [splitSeq_cons_of _ _ _ hne hsof hnob, ih hrest]
    rfl

/-- C8 claim, amended: splitting a multipart/related body on its
boundary extracts exactly the parts whose headers declare an
octet-stream or ZIP content type; each is saved with the raw bytes
following the blank-line header/body separator (both CRLF CRLF and
LF LF separators accepted), under the name taken from the header's
`name="..."` attribute — with `attachment_<idx>.zip` as the default
when the attribute is absent, and with a `.zip` suffix forced when the
name does not already end in `.zip` — while parts of any other declared
type, empty parts, and the trailing `--` terminator are skipped without
error. -/
theorem C8_mtom_extraction (ctype bnd : List Char) (parts : List MPart)
    (hmr : containsSeq "multipart/related".toList (ctype.map Char.toLower) = true)
    (hbd : attrValSearch boundaryKey ctype = some bnd)
    (hb : bndHyg bnd = true)
    (hall : parts.all (partHyg bnd) = true) :
    save_mtom_attachments ctype (mkMtomBody bnd parts) =
      Except.ok (MtomResult.saved (expectedFiles 0 parts)) := by
  have hshape := bmark_shape bnd hb
  have hbne : bnd ≠ [] := by
    unfold bndHyg at hb
    simp only [Bool.and_eq_true] at hb
    intro he
    rw [he] at hb
    simp at hb
  have hne : utf8Encode ('-' :: '-' :: bnd) ≠ [] := by
    rw [hshape]
    simp
  have hsof := sof_bndMark bnd hb
  unfold save_mtom_attachments
  rw [if_pos hmr, hbd]
  dsimp only
  have hsplit : splitSeq (utf8Encode ('-' :: '-' :: bnd)) (mkMtomBody bnd parts) =
      [] :: (parts.map mkMtomPart ++ [[45, 45]]) := by
    unfold mkMtomBody
    rw [show utf8Encode ('-' :: '-' :: bnd) ++ mtomTail bnd parts =
      [] ++ (utf8Encode ('-' :: '-' :: bnd) ++ mtomTail bnd parts) from rfl]
    rw [splitSeq_cons_of (utf8Encode ('-' :: '-' :: bnd)) []
      (mtomTail bnd parts) hne hsof rfl]
    rw [splitSeq_mtomTail bnd hb parts hall]
  rw [hsplit]
  rw [show savePartsAux 0 ([] :: (parts.map mkMtomPart ++ [[45, 45]])) =
    savePartsAux 0 (parts.map mkMtomPart ++ [[45, 45]]) from by
    simp [savePartsAux, show processPart 0 [] = none from rfl]]
  rw [savePartsAux_mtom bnd parts 0 hall]

def c8Ctype : List Char := "multipart/related; boundary=\"BND\"".toList

def c8Hdr1 : List Char := "Content-Type: application/zip; name=\"a.zip\"".toList

def c8Hdr2 : List Char := "Content-Type: application/octet-stream".toList

def c8Hdr3 : List Char := "Content-Type: text/xml; name=\"ignored.xml\"".toList

def c8Parts : List MPart :=
  [⟨true, c8Hdr1, [80, 75, 3, 4]⟩, ⟨false, c8Hdr2, [1, 2, 3]⟩, ⟨true, c8Hdr3, [60, 65, 62]⟩]

/-- Witness for `C8_mtom_extraction`: a three-part body (a CRLF-separated
ZIP part named `a.zip`, an LF-separated octet-stream part with no name
attribute, and a `text/xml` part) saves exactly the two binary parts,
the second under the default name `attachment_1.zip`. -/
theorem C8_mtom_extraction_witness :
    (containsSeq "multipart/related".toList (c8Ctype.map Char.toLower) = true ∧
     attrValSearch boundaryKey c8Ctype = some "BND".toList ∧
     bndHyg "BND".toList = true ∧
     c8Parts.all (partHyg "BND".toList) = true) ∧
    save_mtom_attachments c8Ctype (mkMtomBody "BND".toList c8Parts) =
      Except.ok (MtomResult.saved
        [("a.zip".toList, [80, 75, 3, 4]), ("attachment_1.zip".toList, [1, 2, 3])]) :=
  ⟨⟨by decide, by decide, by decide, by decide⟩,
   (C8_mtom_extraction c8Ctype "BND".toList c8Parts (by decide) (by decide) (by decide)
      (by decide)).trans
     (congrArg (fun l => Except.ok (MtomResult.saved l)) (by decide))⟩

def c8HdrBin : List Char := "Content-Type: application/octet-stream; name=\"data.bin\"".toList

/-- C8 counterexample to the original claim text: the saved filename is
not always the part header's `name="..."` attribute value —
`save_mtom_attachments` forces a `.zip` suffix (opg.py line 190), so a
part whose name attribute is `data.bin` is saved as `data.bin.zip`. -/
theorem C8_zip_suffix_counterexample :
    attrValSearch nameKey c8HdrBin = some "data.bin".toList ∧
    save_mtom_attachments c8Ctype
        (mkMtomBody "BND".toList [⟨true, c8HdrBin, [80, 75, 3, 4]⟩]) =
      Except.ok (MtomResult.saved [("data.bin.zip".toList, [80, 75, 3, 4])]) ∧
    "data.bin.zip".toList ≠ "data.bin".toList :=
  ⟨by decide, rfl, by decide⟩
